import Mathlib

/-!
# The logging spy of `pkg/management/logtest/logtest.go`

A shallow embedding of the test double for the structured logger, over an
explicit Go heap.  Three kinds of Go objects are reference-like in the source
and are therefore kept in the heap and named by an address (an index):

* `SpyLogger` structs that are reached through a pointer (`*SpyLogger`): the
  root returned by `NewSpy`, the struct built by a derivation, and the copy of
  a value receiver `s` whose address `&s` a derivation stores or returns;
* Go maps (`map[string]interface{}`): a struct copy copies the map reference,
  not the entries;
* the backing arrays of the `Records` slices: a struct copy copies the slice
  header (array, length, capacity), so two headers may share one array.

A method with a value receiver (`func (s SpyLogger) ...`) is embedded as a
function of the struct value `s`; a call through a pointer first reads the
struct from the heap (Go's implicit `(*p).M(...)`).
-/

namespace Logtest

/-! ## Values, errors, maps -/

/-- Dynamic values an `interface{}` argument can hold.  Only the distinction
between a `string` and anything else is observed by the code (the type
assertion `keysAndValues[idx].(string)`). -/
inductive Value where
  | nil
  | str (s : String)
  | int (i : Int)
  | bool (b : Bool)
  deriving DecidableEq, Repr

/-- Success of the type assertion `v.(string)`. -/
def Value.isString : Value → Bool
  | .str _ => true
  | _ => false

/-- A non-nil Go `error` value. -/
structure GoError where
  text : String
  deriving DecidableEq, Repr

/-- Contents of a `map[string]interface{}`: keys are unique. -/
abbrev GoMap := AList (fun _ : String => Value)

/-- `type LogLevel string`. -/
abbrev LogLevel := String

/-- `LogLevelError`: the error log level. -/
def LogLevelError : LogLevel := "ERROR"

/-- `LogLevelDebug`: the debug log level. -/
def LogLevelDebug : LogLevel := "DEBUG"

/-- `LogLevelTrace`: the trace log level. -/
def LogLevelTrace : LogLevel := "TRACE"

/-- `LogLevelInfo`: the info log level. -/
def LogLevelInfo : LogLevel := "INFO"

/-- Run-time panics the code can raise. -/
inductive Panic where
  /-- The explicit `panic("key and values set is not even")`. -/
  | notEven
  /-- A failed type assertion `x.(string)`. -/
  | typeAssertion
  /-- The element `keysAndValues[idx+1]` past the end of the list. -/
  | indexOutOfRange
  /-- An assignment to an entry of a nil map. -/
  | nilMapAssign
  /-- A nil pointer dereference. -/
  | nilDeref
  deriving DecidableEq, Repr

/-! ## Data model -/

/-- `type LogRecord struct`; `Attributes` is a map reference (`none` is the
nil map). -/
structure LogRecord where
  LoggerName : String
  Level : LogLevel
  Message : String
  Error : Option GoError
  Attributes : Option Nat
  deriving DecidableEq, Repr

/-- The zero value of `LogRecord`, which fills the unused slots of a freshly
allocated backing array. -/
def LogRecord.zero : LogRecord :=
  { LoggerName := "", Level := "", Message := "", Error := none, Attributes := none }

/-- A slice header `[]LogRecord`: backing array, length and capacity.  Every
slice of this program starts at the first slot of its array (the program never
reslices); the nil slice has length and capacity 0 and its array is never
read. -/
structure Slice where
  arr : Nat
  len : Nat
  cap : Nat
  deriving DecidableEq, Repr

/-- The nil slice. -/
def Slice.nil : Slice := { arr := 0, len := 0, cap := 0 }

/-- `type SpyLogger struct`; `Attributes` is a map reference, `EventSink` a
pointer to a `SpyLogger` (`none` is nil). -/
structure SpyLogger where
  Name : String
  Attributes : Option Nat
  Records : Slice
  EventSink : Option Nat
  deriving DecidableEq, Repr

/-- The Go heap: the `SpyLogger` structs reached through pointers, the maps,
and the backing arrays of the record slices, each addressed by its index. -/
structure Heap where
  loggers : List SpyLogger
  maps : List GoMap
  arrays : List (List LogRecord)

/-- The heap with nothing allocated. -/
def Heap.empty : Heap := { loggers := [], maps := [], arrays := [] }

/-- Result of a call: a value or a panic, and the heap the call leaves. -/
abbrev Outcome (α : Type) := Except Panic α × Heap

/-! ## Heap primitives -/

/-- Entries of the map at address `a`. -/
def Heap.mapAt (h : Heap) (a : Nat) : GoMap := h.maps.getD a ∅

/-- Entries read through a map reference; reading a nil map finds no key. -/
def Heap.attrs (h : Heap) (ref : Option Nat) : GoMap :=
  match ref with
  | none => ∅
  | some a => h.mapAt a

/-- The assignment `m[k] = v` on the map at address `a`. -/
def Heap.mapSet (h : Heap) (a : Nat) (k : String) (v : Value) : Heap :=
  { h with maps := h.maps.set a ((h.mapAt a).insert k v) }

/-- `make(map[string]interface{})`: a fresh empty map and its address. -/
def Heap.makeMap (h : Heap) : Nat × Heap :=
  (h.maps.length, { h with maps := h.maps ++ [∅] })

/-- Elements of a slice: the first `len` slots of its backing array. -/
def Heap.readSlice (h : Heap) (sl : Slice) : List LogRecord :=
  (h.arrays.getD sl.arr []).take sl.len

/-- The built-in `append(sl, r)` for one element.  With spare capacity the
element is written in place into the shared backing array; otherwise a new
array is allocated, the elements are copied and the element is added.  The
capacity of the new array is chosen by the Go runtime, which is not part of
the repository: it is the parameter `grow` (old capacity to proposed
capacity), raised to the needed length when it proposes less. -/
def Heap.appendRecord (grow : Nat → Nat) (h : Heap) (sl : Slice) (r : LogRecord) :
    Slice × Heap :=
  if sl.len < sl.cap then
    ({ sl with len := sl.len + 1 },
     { h with arrays := h.arrays.set sl.arr ((h.arrays.getD sl.arr []).set sl.len r) })
  else
    let newcap := max (grow sl.cap) (sl.len + 1)
    ({ arr := h.arrays.length, len := sl.len + 1, cap := newcap },
     { h with arrays := h.arrays ++
        [h.readSlice sl ++ r :: List.replicate (newcap - (sl.len + 1)) LogRecord.zero] })

/-- The loop
`for idx := 0; idx < len(kv); idx += 2 { m[kv[idx].(string)] = kv[idx+1] }`
on the map referenced by `m`, consuming the list two elements at a time.  In
each iteration the key assertion is evaluated first, then the value operand,
then the assignment is carried out; the pairs assigned before a panic stay
assigned. -/
def assignPairs (m : Option Nat) : List Value → Heap → Outcome Unit
  | [], h => (.ok (), h)
  | [k], h =>
    match k with
    | .str _ => (.error .indexOutOfRange, h)
    | _ => (.error .typeAssertion, h)
  | k :: v :: rest, h =>
    match k with
    | .str key =>
      match m with
      | none => (.error .nilMapAssign, h)
      | some a => assignPairs m rest (h.mapSet a key v)
    | _ => (.error .typeAssertion, h)

/-! ## `LogRecord` -/

/-- `func (record *LogRecord) WithValues(keysAndValues ...interface{})`.  The
method writes only through the map reference of the record. -/
def LogRecord.WithValues (record : LogRecord) (keysAndValues : List Value) (h : Heap) :
    Outcome Unit :=
  if keysAndValues.length % 2 != 0 then
    (.error .notEven, h)
  else
    assignPairs record.Attributes keysAndValues h

/-- `func NewRecord(name, level, msg, err, keysAndValues...) *LogRecord`.  The
record struct is returned by value: the callers only copy it (`*record`). -/
def NewRecord (name : String) (level : LogLevel) (msg : String) (err : Option GoError)
    (keysAndValues : List Value) (h : Heap) : Outcome LogRecord :=
  let (a, h1) := h.makeMap
  let result : LogRecord :=
    { LoggerName := name, Level := level, Message := msg, Error := err, Attributes := some a }
  match LogRecord.WithValues result keysAndValues h1 with
  | (.error p, h2) => (.error p, h2)
  | (.ok (), h2) => (.ok result, h2)

/-! ## `SpyLogger` -/

/-- `func NewSpy() *SpyLogger`: the pointer returned and the heap holding the
new struct, whose `EventSink` is its own address. -/
def NewSpy (h : Heap) : Nat × Heap :=
  let p := h.loggers.length
  (p, { h with loggers := h.loggers ++
    [{ Name := "", Attributes := none, Records := Slice.nil, EventSink := some p }] })

/-- `func (s *SpyLogger) AddRecord(record *LogRecord)`.  The receiver is only
read (`s.EventSink`), so the struct it points to is passed; the write goes
through the `EventSink` pointer. -/
def SpyLogger.AddRecord (grow : Nat → Nat) (s : SpyLogger) (record : LogRecord) (h : Heap) :
    Outcome Unit :=
  match s.EventSink with
  | none => (.error .nilDeref, h)
  | some q =>
    match h.loggers[q]? with
    | none => (.error .nilDeref, h)
    | some sink =>
      let (sl, h1) := h.appendRecord grow sink.Records record
      (.ok (), { h1 with loggers := h1.loggers.set q { sink with Records := sl } })

/-- `func (s SpyLogger) GetLogger() logr.Logger`: always nil. -/
def SpyLogger.GetLogger (_s : SpyLogger) : Option Unit := none

/-- `func (s SpyLogger) Enabled() bool`. -/
def SpyLogger.Enabled (_s : SpyLogger) : Bool := true

/-- `func (s *SpyLogger) Error(err, msg, keysAndValues...)`: pointer
receiver. -/
def SpyLogger.Error (grow : Nat → Nat) (p : Nat) (err : Option GoError) (msg : String)
    (keysAndValues : List Value) (h : Heap) : Outcome Unit :=
  match h.loggers[p]? with
  | none => (.error .nilDeref, h)
  | some s =>
    match NewRecord s.Name LogLevelError msg err keysAndValues h with
    | (.error e, h1) => (.error e, h1)
    | (.ok record, h1) => SpyLogger.AddRecord grow s record h1

/-- `func (s SpyLogger) Info(msg, keysAndValues...)`: value receiver. -/
def SpyLogger.Info (grow : Nat → Nat) (s : SpyLogger) (msg : String)
    (keysAndValues : List Value) (h : Heap) : Outcome Unit :=
  match NewRecord s.Name LogLevelInfo msg none keysAndValues h with
  | (.error e, h1) => (.error e, h1)
  | (.ok record, h1) => SpyLogger.AddRecord grow s record h1

/-- `func (s SpyLogger) Debug(msg, keysAndValues...)`: value receiver. -/
def SpyLogger.Debug (grow : Nat → Nat) (s : SpyLogger) (msg : String)
    (keysAndValues : List Value) (h : Heap) : Outcome Unit :=
  match NewRecord s.Name LogLevelDebug msg none keysAndValues h with
  | (.error e, h1) => (.error e, h1)
  | (.ok record, h1) => SpyLogger.AddRecord grow s record h1

/-- `func (s SpyLogger) Trace(msg, keysAndValues...)`: value receiver. -/
def SpyLogger.Trace (grow : Nat → Nat) (s : SpyLogger) (msg : String)
    (keysAndValues : List Value) (h : Heap) : Outcome Unit :=
  match NewRecord s.Name LogLevelTrace msg none keysAndValues h with
  | (.error e, h1) => (.error e, h1)
  | (.ok record, h1) => SpyLogger.AddRecord grow s record h1

/-- The loop `for key, value := range src { dst[key] = value }` into the map at
address `a`, over the entries `src` read before the loop. -/
def copyEntries (a : Nat) (src : GoMap) (h : Heap) : Heap :=
  src.entries.foldl (fun hh e => hh.mapSet a e.1 e.2) h

/-- `func (s SpyLogger) WithValues(keysAndValues...) log.Logger`: value
receiver.  The copy `s` of the receiver escapes through `&s` and is placed in
the heap; the result struct follows it.  Returns the pointer to the result. -/
def SpyLogger.WithValues (s : SpyLogger) (keysAndValues : List Value) (h : Heap) :
    Outcome Nat :=
  let c := h.loggers.length
  let (a, h1) := h.makeMap
  let result : SpyLogger :=
    { Name := s.Name, Attributes := some a, Records := Slice.nil, EventSink := some c }
  let h2 : Heap := { h1 with loggers := h1.loggers ++ [s, result] }
  let h3 := copyEntries a (h.attrs s.Attributes) h2
  match assignPairs (some a) keysAndValues h3 with
  | (.error e, h4) => (.error e, h4)
  | (.ok (), h4) => (.ok (c + 1), h4)

/-- `func (s SpyLogger) WithName(name string) log.Logger`: value receiver; the
copy `s` escapes through `&s`.  Returns the pointer to the result. -/
def SpyLogger.WithName (s : SpyLogger) (name : String) (h : Heap) : Nat × Heap :=
  let c := h.loggers.length
  (c + 1, { h with loggers := h.loggers ++
    [s, { Name := name, Attributes := none, Records := Slice.nil, EventSink := some c }] })

/-- `func (s SpyLogger) WithCaller() log.Logger`: returns `&s`, the address of
the copy of the receiver. -/
def SpyLogger.WithCaller (s : SpyLogger) (h : Heap) : Nat × Heap :=
  (h.loggers.length, { h with loggers := h.loggers ++ [s] })

/-! ## Observations and call sequences -/

/-- The `Records` field of the logger at address `p`, read as a list. -/
def Heap.records (h : Heap) (p : Nat) : List LogRecord :=
  match h.loggers[p]? with
  | none => []
  | some s => h.readSlice s.Records

/-- A slice header is valid in a heap when its length is within its capacity
and its capacity within its backing array. -/
def Heap.validSlice (h : Heap) (sl : Slice) : Prop :=
  sl.len ≤ sl.cap ∧ sl.cap ≤ (h.arrays.getD sl.arr []).length

instance (h : Heap) (sl : Slice) : Decidable (h.validSlice sl) :=
  inferInstanceAs (Decidable (_ ∧ _))

/-- A record as a test assertion sees it: the fields, with the attribute map
read through its reference. -/
structure RecordView where
  LoggerName : String
  Level : LogLevel
  Message : String
  Error : Option GoError
  Attributes : GoMap

/-- The view of a record in a heap. -/
def Heap.view (h : Heap) (r : LogRecord) : RecordView :=
  { LoggerName := r.LoggerName, Level := r.Level, Message := r.Message, Error := r.Error,
    Attributes := h.attrs r.Attributes }

/-- A key/value list is well formed when its length is even and every
even-indexed element is a string. -/
def WellFormedKV (kv : List Value) : Prop :=
  kv.length % 2 = 0 ∧ ∀ i, i < kv.length → i % 2 = 0 → (kv.getD i Value.nil).isString = true

/-- The map obtained from `m` by the assignments `m[k] = v` for the pairs of a
list, in list order; the list is read as far as it is made of string-keyed
pairs. -/
def insertPairs : List Value → GoMap → GoMap
  | .str key :: v :: rest, m => insertPairs rest (m.insert key v)
  | _, m => m

/-- The mapping built from a key/value list alone. -/
def mapOfPairs (kv : List Value) : GoMap := insertPairs kv ∅

/-- The value that follows the last occurrence of `key` at an even index of a
key/value list, if `key` occurs there. -/
def lastValue (key : String) : List Value → Option Value
  | k :: v :: rest =>
    match lastValue key rest with
    | some w => some w
    | none => if k = Value.str key then some v else none
  | _ => none

/-- One emission call with its arguments. -/
inductive Call where
  | Error (err : Option GoError) (msg : String) (kv : List Value)
  | Info (msg : String) (kv : List Value)
  | Debug (msg : String) (kv : List Value)
  | Trace (msg : String) (kv : List Value)

/-- The key/value list of a call. -/
def Call.kv : Call → List Value
  | .Error _ _ kv => kv
  | .Info _ kv => kv
  | .Debug _ kv => kv
  | .Trace _ kv => kv

/-- The record a test expects from a call made on a logger named `name`: its
level, message, error and the mapping built from its key/value list. -/
def Call.expected (name : String) : Call → RecordView
  | .Error err msg kv =>
    { LoggerName := name, Level := "ERROR", Message := msg, Error := err,
      Attributes := mapOfPairs kv }
  | .Info msg kv =>
    { LoggerName := name, Level := "INFO", Message := msg, Error := none,
      Attributes := mapOfPairs kv }
  | .Debug msg kv =>
    { LoggerName := name, Level := "DEBUG", Message := msg, Error := none,
      Attributes := mapOfPairs kv }
  | .Trace msg kv =>
    { LoggerName := name, Level := "TRACE", Message := msg, Error := none,
      Attributes := mapOfPairs kv }

/-- A call of a value-receiver method through the pointer `p`: Go reads the
struct first (`(*p).M(...)`). -/
def viaPointer {α : Type} (p : Nat) (h : Heap) (f : SpyLogger → Heap → Outcome α) : Outcome α :=
  match h.loggers[p]? with
  | none => (.error .nilDeref, h)
  | some s => f s h

/-- An emission call made on the logger the pointer `p` refers to. -/
def emit (grow : Nat → Nat) (p : Nat) (c : Call) (h : Heap) : Outcome Unit :=
  match c with
  | .Error err msg kv => SpyLogger.Error grow p err msg kv h
  | .Info msg kv => viaPointer p h (fun s hh => SpyLogger.Info grow s msg kv hh)
  | .Debug msg kv => viaPointer p h (fun s hh => SpyLogger.Debug grow s msg kv hh)
  | .Trace msg kv => viaPointer p h (fun s hh => SpyLogger.Trace grow s msg kv hh)

/-- A sequence of emission calls, each on its own logger, run in order; a
panic ends the run. -/
def runCalls (grow : Nat → Nat) : List (Nat × Call) → Heap → Outcome Unit
  | [], h => (.ok (), h)
  | (p, c) :: rest, h =>
    match emit grow p c h with
    | (.error e, h1) => (.error e, h1)
    | (.ok (), h1) => runCalls grow rest h1

/-- The capacity policy of the Go runtime for small slices: double. -/
def doubling (c : Nat) : Nat := 2 * c


/-- The effect of a successful emission on the heap: one map allocated, the
record appended to the `Records` of the sink at address `q`. -/
def Appended (h h1 : Heap) (q : Nat) (sink : SpyLogger) (r : LogRecord) (m : GoMap) : Prop :=
  ∃ sl, h1.maps = h.maps ++ [m] ∧
    h1.loggers = h.loggers.set q { sink with Records := sl } ∧
    h1.validSlice sl ∧
    h1.readSlice sl = h.readSlice sink.Records ++ [r]

instance (kv : List Value) : Decidable (WellFormedKV kv) :=
  inferInstanceAs (Decidable (_ ∧ _))

/-- The calls of the example scenario: `spy.Info("starting", "attempt", 1)`
then `spy.Error(errors.New("boom"), "failed")`. -/
def exampleCalls : List Call :=
  [.Info "starting" [.str "attempt", .int 1], .Error (some ⟨"boom"⟩) "failed" []]

/-- Sequencing of calls: the next call runs in the heap the previous one left,
unless that one panicked. -/
def Outcome.andThen {α β : Type} (o : Outcome α) (f : α → Heap → Outcome β) : Outcome β :=
  match o with
  | (.error e, h) => (.error e, h)
  | (.ok a, h) => f a h

/-- The call `p.WithName(name)` through a pointer. -/
def derivedByName (p : Nat) (name : String) (h : Heap) : Outcome Nat :=
  viaPointer p h (fun s hh => (.ok (s.WithName name hh).1, (s.WithName name hh).2))

/-- The call `p.WithValues(kv...)` through a pointer. -/
def derivedByValues (p : Nat) (kv : List Value) (h : Heap) : Outcome Nat :=
  viaPointer p h (fun s hh => s.WithValues kv hh)

/-- The call `p.WithCaller()` through a pointer. -/
def derivedByCaller (p : Nat) (h : Heap) : Outcome Nat :=
  viaPointer p h (fun s hh => (.ok (s.WithCaller hh).1, (s.WithCaller hh).2))

/-- The test
`root := NewSpy(); a := root.WithName(na); b := root.WithName(nb);
a.Info("first"); b.Info("second")`, returning the pointers `root`, `a`, `b`. -/
def twoNamedLoggers (grow : Nat → Nat) (na nb : String) : Outcome (Nat × Nat × Nat) :=
  (derivedByName (NewSpy Heap.empty).1 na (NewSpy Heap.empty).2).andThen fun a h2 =>
  (derivedByName (NewSpy Heap.empty).1 nb h2).andThen fun b h3 =>
  (emit grow a (.Info "first" []) h3).andThen fun _ h4 =>
  (emit grow b (.Info "second" []) h4).andThen fun _ h5 =>
  (.ok ((NewSpy Heap.empty).1, a, b), h5)

/-- The test
`root := NewSpy(); d := root.WithValues("k", "v").WithName("x").WithCaller();
root.Info("r1"); d.Info("d1"); root.Info("r2")`, returning the pointers `root`
and `d`. -/
def chainedLogger (grow : Nat → Nat) : Outcome (Nat × Nat) :=
  (derivedByValues (NewSpy Heap.empty).1 [.str "k", .str "v"] (NewSpy Heap.empty).2).andThen
    fun d1 h2 =>
  (derivedByName d1 "x" h2).andThen fun d2 h3 =>
  (derivedByCaller d2 h3).andThen fun d h4 =>
  (emit grow (NewSpy Heap.empty).1 (.Info "r1" []) h4).andThen fun _ h5 =>
  (emit grow d (.Info "d1" []) h5).andThen fun _ h6 =>
  (emit grow (NewSpy Heap.empty).1 (.Info "r2" []) h6).andThen fun _ h7 =>
  (.ok ((NewSpy Heap.empty).1, d), h7)

/-- The heap after `root := NewSpy(); svc := root.WithName("svc")`: the root at
address 0, the copy of the root at 1, the logger `svc` at 2. -/
def namedHeap : Heap := (SpyLogger.WithName
  { Name := "", Attributes := none, Records := Slice.nil, EventSink := some 0 } "svc"
  (NewSpy Heap.empty).2).2

/-- The logger `svc` of `namedHeap`. -/
def svcLogger : SpyLogger :=
  { Name := "svc", Attributes := none, Records := Slice.nil, EventSink := some 1 }

/-- The copy of the root that `svc.EventSink` points to in `namedHeap`. -/
def rootCopy : SpyLogger :=
  { Name := "", Attributes := none, Records := Slice.nil, EventSink := some 0 }

/-- The heap after `root := NewSpy(); bound := root.WithValues("k", "v")`: the
root at address 0, the copy of the root at 1, the logger `bound` at 2, its
attribute map at map address 0. -/
def boundHeap : Heap := (SpyLogger.WithValues
  { Name := "", Attributes := none, Records := Slice.nil, EventSink := some 0 }
  [.str "k", .str "v"] (NewSpy Heap.empty).2).2

/-- The logger `bound` of `boundHeap`, with the attribute `k` bound to `v`. -/
def boundLogger : SpyLogger :=
  { Name := "", Attributes := some 0, Records := Slice.nil, EventSink := some 1 }

/-- The call `Info("retry", "attempt", 1)`. -/
def retryCall : Call := .Info "retry" [.str "attempt", .int 1]

/-- The map obtained from `dst` by the assignments `dst[key] = value` for the
entries of `src`. -/
def copyInto (src dst : GoMap) : GoMap :=
  src.entries.foldl (fun m e => m.insert e.1 e.2) dst

/-- A key/value list that rebinds the key `k` and adds the key `attempt`. -/
def rebindKV : List Value := [.str "k", .str "w", .str "attempt", .int 1]

/-- The test `root := NewSpy(); d := root.WithValues("k", "v"); d.Info("m")`,
returning the pointers `root` and `d`. -/
def boundThenInfo (grow : Nat → Nat) : Outcome (Nat × Nat) :=
  (derivedByValues (NewSpy Heap.empty).1 [.str "k", .str "v"] (NewSpy Heap.empty).2).andThen
    fun d h2 =>
  (emit grow d (.Info "m" []) h2).andThen fun _ h3 =>
  (.ok ((NewSpy Heap.empty).1, d), h3)

/-- A key/value list with the key `a` supplied twice. -/
def repeatedKeyKV : List Value := [.str "a", .int 1, .str "a", .int 2]

/-- An emission call with an odd-length list whose leading pair is well
formed: `Error(errors.New("boom"), "failed", "a", 1, "b")`. -/
def oddCall : Call := .Error (some ⟨"boom"⟩) "failed" [.str "a", .int 1, .str "b"]

/-- The call `p.Enabled()` through a pointer: the method reads nothing and
writes nothing. -/
def enabledCall (p : Nat) (h : Heap) : Outcome Bool :=
  viaPointer p h (fun s hh => (.ok s.Enabled, hh))

/-- The derived logger `a` of the test `twoNamedLoggers`, after its emission. -/
def loggerA : SpyLogger :=
  { Name := "a", Attributes := none, Records := Slice.nil, EventSink := some 1 }

/-- A record whose attribute map is the map at address 0 of `boundHeap`, which
binds `k` to `v`. -/
def storedRecord : LogRecord :=
  { LoggerName := "n", Level := LogLevelInfo, Message := "m", Error := none,
    Attributes := some 0 }

/-- An odd-length list whose leading pair is well formed and rebinds `k`. -/
def danglingKV : List Value := [.str "k", .str "w", .str "b"]

/-! ## Lists of pairs -/

/-- Induction over a list two elements at a time. -/
theorem pairs_induction {P : List Value → Prop} (h0 : P []) (h1 : ∀ k, P [k])
    (h2 : ∀ k v rest, P rest → P (k :: v :: rest)) : ∀ l, P l
  | [] => h0
  | [k] => h1 k
  | k :: v :: rest => h2 k v rest (pairs_induction h0 h1 h2 rest)

theorem wellFormedKV_nil : WellFormedKV [] := by
  constructor
  · rfl
  · intro i hi; simp at hi

theorem not_wellFormedKV_single (k : Value) : ¬ WellFormedKV [k] := by
  intro h
  have := h.1
  simp at this

theorem wellFormedKV_cons_cons (k v : Value) (rest : List Value) :
    WellFormedKV (k :: v :: rest) ↔ k.isString = true ∧ WellFormedKV rest := by
  constructor
  · intro h
    refine ⟨?_, ?_, ?_⟩
    · have := h.2 0 (by simp) rfl
      simpa using this
    · have := h.1
      simp only [List.length_cons] at this
      omega
    · intro i hi hpar
      have := h.2 (i + 2) (by simp only [List.length_cons]; omega) (by omega)
      simpa using this
  · rintro ⟨hk, hlen, hall⟩
    refine ⟨?_, ?_⟩
    · simp only [List.length_cons]; omega
    · intro i hi hpar
      match i, hi, hpar with
      | 0, _, _ => simpa using hk
      | 1, _, hp => simp at hp
      | j + 2, hj, hp =>
        have := hall j (by simp only [List.length_cons] at hj; omega) (by omega)
        simpa using this

/-! ## Heap lemmas -/

theorem list_set_self {α : Type} (l : List α) (i : Nat) (hi : i < l.length) :
    l.set i l[i] = l := by
  apply List.ext_getElem?
  intro j
  rw [List.getElem?_set]
  split
  · subst_vars; simp [hi]
  · rfl


theorem mapAt_mapSet_same (h : Heap) (a : Nat) (k : String) (v : Value)
    (ha : a < h.maps.length) : (h.mapSet a k v).mapAt a = (h.mapAt a).insert k v := by
  simp [Heap.mapAt, Heap.mapSet, List.getD_eq_getElem?_getD, ha]

theorem maps_length_mapSet (h : Heap) (a : Nat) (k : String) (v : Value) :
    (h.mapSet a k v).maps.length = h.maps.length := by
  simp [Heap.mapSet]

theorem assignPairs_ok (a : Nat) : ∀ (kv : List Value) (h : Heap), a < h.maps.length →
    WellFormedKV kv →
    assignPairs (some a) kv h =
      (.ok (), { h with maps := h.maps.set a (insertPairs kv (h.mapAt a)) }) := by
  intro kv
  induction kv using pairs_induction with
  | h0 =>
    intro h ha _
    simp [assignPairs, insertPairs, Heap.mapAt, List.getD_eq_getElem?_getD, ha, list_set_self]
  | h1 k => intro h _ hwf; exact absurd hwf (not_wellFormedKV_single k)
  | h2 k v rest ih =>
    intro h ha hwf
    rw [wellFormedKV_cons_cons] at hwf
    obtain ⟨hk, hrest⟩ := hwf
    cases k with
    | str key =>
      simp only [assignPairs, insertPairs]
      rw [ih (h.mapSet a key v) (by rw [maps_length_mapSet]; exact ha) hrest,
        mapAt_mapSet_same h a key v ha]
      simp [Heap.mapSet]
    | nil => simp [Value.isString] at hk
    | int i => simp [Value.isString] at hk
    | bool b => simp [Value.isString] at hk

theorem assignPairs_ok_iff (a : Nat) : ∀ (kv : List Value) (h : Heap),
    (assignPairs (some a) kv h).1 = .ok () ↔ WellFormedKV kv := by
  intro kv
  induction kv using pairs_induction with
  | h0 => intro h; simp [assignPairs, wellFormedKV_nil]
  | h1 k =>
    intro h
    have := not_wellFormedKV_single k
    cases k <;> simp [assignPairs, this]
  | h2 k v rest ih =>
    intro h
    rw [wellFormedKV_cons_cons]
    cases k with
    | str key => simp [assignPairs, ih, Value.isString]
    | nil => simp [assignPairs, Value.isString]
    | int i => simp [assignPairs, Value.isString]
    | bool b => simp [assignPairs, Value.isString]

theorem wellFormedKV_even {kv : List Value} (h : WellFormedKV kv) : kv.length % 2 = 0 := h.1

theorem NewRecord_ok (name : String) (level : LogLevel) (msg : String) (err : Option GoError)
    (kv : List Value) (h : Heap) (hwf : WellFormedKV kv) :
    NewRecord name level msg err kv h =
      (.ok { LoggerName := name, Level := level, Message := msg, Error := err,
             Attributes := some h.maps.length },
       { h with maps := h.maps ++ [mapOfPairs kv] }) := by
  have hlen := hwf.1
  simp only [NewRecord, Heap.makeMap, LogRecord.WithValues, hlen]
  rw [assignPairs_ok _ _ _ (by simp) hwf]
  simp [Heap.mapAt, mapOfPairs, List.getD_eq_getElem?_getD]


theorem take_succ_set {α : Type} (r : α) : ∀ (l : List α) (n : Nat), n < l.length →
    (l.set n r).take (n + 1) = l.take n ++ [r]
  | [], n, hn => by simp at hn
  | x :: xs, 0, _ => by simp
  | x :: xs, n + 1, hn => by
    have := take_succ_set r xs n (by simpa using hn)
    simp [this]

theorem appendRecord_spec (grow : Nat → Nat) (h : Heap) (sl : Slice) (r : LogRecord)
    (hv : h.validSlice sl) :
    (h.appendRecord grow sl r).2.loggers = h.loggers ∧
    (h.appendRecord grow sl r).2.maps = h.maps ∧
    (h.appendRecord grow sl r).2.validSlice (h.appendRecord grow sl r).1 ∧
    (h.appendRecord grow sl r).2.readSlice (h.appendRecord grow sl r).1 =
      h.readSlice sl ++ [r] := by
  obtain ⟨hlen, hcap⟩ := hv
  unfold Heap.appendRecord
  by_cases hroom : sl.len < sl.cap
  · have harr : sl.arr < h.arrays.length := by
      by_contra hcon
      have : h.arrays[sl.arr]? = none := by simp; omega
      simp [List.getD_eq_getElem?_getD, this] at hcap
      omega
    have hA : sl.len < (h.arrays.getD sl.arr []).length := by omega
    rw [if_pos hroom]
    refine ⟨rfl, rfl, ?_, ?_⟩
    · constructor
      · simp only; omega
      · simp [List.getD_eq_getElem?_getD, harr] at hcap ⊢
        exact hcap
    · simp only [Heap.readSlice]
      simp only [List.getD_eq_getElem?_getD, List.getElem?_set_self harr, Option.getD_some]
      simp only [List.getD_eq_getElem?_getD] at hA
      exact take_succ_set r _ _ hA
  · rw [if_neg hroom]
    have hrl : (h.readSlice sl).length = sl.len := by
      simp only [Heap.readSlice, List.length_take]
      omega
    refine ⟨rfl, rfl, ?_, ?_⟩
    · constructor
      · simp only; omega
      · simp [List.getD_eq_getElem?_getD, hrl]
        omega
    · simp only [Heap.readSlice] at hrl ⊢
      simp only [List.getD_eq_getElem?_getD, List.getElem?_concat_length, Option.getD_some]
      rw [List.take_append_eq_append_take]
      simp only [List.getD_eq_getElem?_getD] at hrl
      simp [hrl]

theorem AddRecord_spec (grow : Nat → Nat) (s sink : SpyLogger) (q : Nat) (r : LogRecord)
    (h : Heap) (hs : s.EventSink = some q) (hq : h.loggers[q]? = some sink)
    (hv : h.validSlice sink.Records) :
    ∃ h1 sl, SpyLogger.AddRecord grow s r h = (.ok (), h1) ∧
      h1.maps = h.maps ∧
      h1.loggers = h.loggers.set q { sink with Records := sl } ∧
      h1.validSlice sl ∧
      h1.readSlice sl = h.readSlice sink.Records ++ [r] := by
  obtain ⟨h1, h2, h3, h4⟩ := appendRecord_spec grow h sink.Records r hv
  refine ⟨{ (h.appendRecord grow sink.Records r).2 with
      loggers := (h.appendRecord grow sink.Records r).2.loggers.set q
        { sink with Records := (h.appendRecord grow sink.Records r).1 } },
    (h.appendRecord grow sink.Records r).1, ?_, ?_, ?_, ?_, ?_⟩
  · simp only [SpyLogger.AddRecord, hs, hq]
  · exact h2
  · simp only [h1]
  · exact h3
  · exact h4

theorem record_add_spec (grow : Nat → Nat) (s sink : SpyLogger) (q : Nat) (r : LogRecord)
    (m : GoMap) (h : Heap) (hs : s.EventSink = some q) (hq : h.loggers[q]? = some sink)
    (hv : h.validSlice sink.Records) :
    ∃ h1, SpyLogger.AddRecord grow s r { h with maps := h.maps ++ [m] } = (.ok (), h1) ∧
      Appended h h1 q sink r m := by
  obtain ⟨h1, sl, e1, e2, e3, e4, e5⟩ :=
    AddRecord_spec grow s sink q r { h with maps := h.maps ++ [m] } hs hq hv
  exact ⟨h1, e1, sl, e2, e3, e4, e5⟩

theorem Info_spec (grow : Nat → Nat) (s sink : SpyLogger) (q : Nat) (msg : String)
    (kv : List Value) (h : Heap) (hs : s.EventSink = some q) (hq : h.loggers[q]? = some sink)
    (hv : h.validSlice sink.Records) (hwf : WellFormedKV kv) :
    ∃ h1, SpyLogger.Info grow s msg kv h = (.ok (), h1) ∧
      Appended h h1 q sink
        { LoggerName := s.Name, Level := LogLevelInfo, Message := msg, Error := none,
          Attributes := some h.maps.length } (mapOfPairs kv) := by
  simp only [SpyLogger.Info, NewRecord_ok _ _ _ _ _ _ hwf]
  exact record_add_spec grow s sink q _ _ h hs hq hv

theorem Debug_spec (grow : Nat → Nat) (s sink : SpyLogger) (q : Nat) (msg : String)
    (kv : List Value) (h : Heap) (hs : s.EventSink = some q) (hq : h.loggers[q]? = some sink)
    (hv : h.validSlice sink.Records) (hwf : WellFormedKV kv) :
    ∃ h1, SpyLogger.Debug grow s msg kv h = (.ok (), h1) ∧
      Appended h h1 q sink
        { LoggerName := s.Name, Level := LogLevelDebug, Message := msg, Error := none,
          Attributes := some h.maps.length } (mapOfPairs kv) := by
  simp only [SpyLogger.Debug, NewRecord_ok _ _ _ _ _ _ hwf]
  exact record_add_spec grow s sink q _ _ h hs hq hv

theorem Trace_spec (grow : Nat → Nat) (s sink : SpyLogger) (q : Nat) (msg : String)
    (kv : List Value) (h : Heap) (hs : s.EventSink = some q) (hq : h.loggers[q]? = some sink)
    (hv : h.validSlice sink.Records) (hwf : WellFormedKV kv) :
    ∃ h1, SpyLogger.Trace grow s msg kv h = (.ok (), h1) ∧
      Appended h h1 q sink
        { LoggerName := s.Name, Level := LogLevelTrace, Message := msg, Error := none,
          Attributes := some h.maps.length } (mapOfPairs kv) := by
  simp only [SpyLogger.Trace, NewRecord_ok _ _ _ _ _ _ hwf]
  exact record_add_spec grow s sink q _ _ h hs hq hv

theorem Error_spec (grow : Nat → Nat) (p : Nat) (s sink : SpyLogger) (q : Nat)
    (err : Option GoError) (msg : String) (kv : List Value) (h : Heap)
    (hp : h.loggers[p]? = some s) (hs : s.EventSink = some q)
    (hq : h.loggers[q]? = some sink) (hv : h.validSlice sink.Records)
    (hwf : WellFormedKV kv) :
    ∃ h1, SpyLogger.Error grow p err msg kv h = (.ok (), h1) ∧
      Appended h h1 q sink
        { LoggerName := s.Name, Level := LogLevelError, Message := msg, Error := err,
          Attributes := some h.maps.length } (mapOfPairs kv) := by
  simp only [SpyLogger.Error, hp, NewRecord_ok _ _ _ _ _ _ hwf]
  exact record_add_spec grow s sink q _ _ h hs hq hv

theorem Appended.records_sink {h h1 : Heap} {q : Nat} {sink : SpyLogger} {r : LogRecord}
    {m : GoMap} (ha : Appended h h1 q sink r m) (hq : h.loggers[q]? = some sink) :
    h1.records q = h.records q ++ [r] := by
  obtain ⟨sl, _, e2, _, e4⟩ := ha
  have hlt : q < h.loggers.length := by
    by_contra hcon
    have : h.loggers[q]? = none := by simp; omega
    rw [this] at hq
    cases hq
  simp only [Heap.records, e2, List.getElem?_set_self hlt, hq, e4]

theorem Appended.logger_other {h h1 : Heap} {q : Nat} {sink : SpyLogger} {r : LogRecord}
    {m : GoMap} (ha : Appended h h1 q sink r m) (p : Nat) (hne : p ≠ q) :
    h1.loggers[p]? = h.loggers[p]? := by
  obtain ⟨sl, _, e2, _, _⟩ := ha
  rw [e2, List.getElem?_set_ne (Ne.symm hne)]

theorem Appended.attrs_new {h h1 : Heap} {q : Nat} {sink : SpyLogger} {r : LogRecord}
    {m : GoMap} (ha : Appended h h1 q sink r m) :
    h1.attrs (some h.maps.length) = m := by
  obtain ⟨sl, e1, _, _, _⟩ := ha
  simp [Heap.attrs, Heap.mapAt, e1, List.getD_eq_getElem?_getD]

theorem Appended.attrs_old {h h1 : Heap} {q : Nat} {sink : SpyLogger} {r : LogRecord}
    {m : GoMap} (ha : Appended h h1 q sink r m) (a : Nat) (hlt : a < h.maps.length) :
    h1.attrs (some a) = h.attrs (some a) := by
  obtain ⟨sl, e1, _, _, _⟩ := ha
  simp [Heap.attrs, Heap.mapAt, e1, List.getD_eq_getElem?_getD, List.getElem?_append_left hlt]


theorem Appended.view_old {h h1 : Heap} {q : Nat} {sink : SpyLogger} {r : LogRecord}
    {m : GoMap} (ha : Appended h h1 q sink r m) (r0 : LogRecord)
    (hr0 : ∀ a, r0.Attributes = some a → a < h.maps.length) :
    h1.view r0 = h.view r0 := by
  unfold Heap.view
  cases hattr : r0.Attributes with
  | none => rfl
  | some a => rw [ha.attrs_old a (hr0 a hattr)]

theorem Appended.maps_length {h h1 : Heap} {q : Nat} {sink : SpyLogger} {r : LogRecord}
    {m : GoMap} (ha : Appended h h1 q sink r m) : h1.maps.length = h.maps.length + 1 := by
  obtain ⟨sl, e1, _, _, _⟩ := ha
  simp [e1]

theorem Appended.logger_sink {h h1 : Heap} {q : Nat} {sink : SpyLogger} {r : LogRecord}
    {m : GoMap} (ha : Appended h h1 q sink r m) (hq : h.loggers[q]? = some sink) :
    ∃ sl, h1.loggers[q]? = some { sink with Records := sl } ∧ h1.validSlice sl := by
  obtain ⟨sl, _, e2, e3, _⟩ := ha
  have hlt : q < h.loggers.length := by
    by_contra hcon
    have : h.loggers[q]? = none := by simp; omega
    rw [this] at hq
    cases hq
  exact ⟨sl, by rw [e2, List.getElem?_set_self hlt], e3⟩

theorem emit_spec (grow : Nat → Nat) (p : Nat) (s sink : SpyLogger) (q : Nat) (c : Call)
    (h : Heap) (hp : h.loggers[p]? = some s) (hs : s.EventSink = some q)
    (hq : h.loggers[q]? = some sink) (hv : h.validSlice sink.Records)
    (hwf : WellFormedKV c.kv) :
    ∃ h1 r, emit grow p c h = (.ok (), h1) ∧ Appended h h1 q sink r (mapOfPairs c.kv) ∧
      r.Attributes = some h.maps.length ∧ h1.view r = c.expected s.Name := by
  cases c with
  | Error err msg kv =>
    obtain ⟨h1, e, ha⟩ := Error_spec grow p s sink q err msg kv h hp hs hq hv hwf
    refine ⟨h1, _, e, ha, rfl, ?_⟩
    simp only [Heap.view, ha.attrs_new, Call.expected, LogLevelError]
  | Info msg kv =>
    obtain ⟨h1, e, ha⟩ := Info_spec grow s sink q msg kv h hs hq hv hwf
    refine ⟨h1, _, by simp only [emit, viaPointer, hp, e], ha, rfl, ?_⟩
    simp only [Heap.view, ha.attrs_new, Call.expected, LogLevelInfo]
  | Debug msg kv =>
    obtain ⟨h1, e, ha⟩ := Debug_spec grow s sink q msg kv h hs hq hv hwf
    refine ⟨h1, _, by simp only [emit, viaPointer, hp, e], ha, rfl, ?_⟩
    simp only [Heap.view, ha.attrs_new, Call.expected, LogLevelDebug]
  | Trace msg kv =>
    obtain ⟨h1, e, ha⟩ := Trace_spec grow s sink q msg kv h hs hq hv hwf
    refine ⟨h1, _, by simp only [emit, viaPointer, hp, e], ha, rfl, ?_⟩
    simp only [Heap.view, ha.attrs_new, Call.expected, LogLevelTrace]

theorem runCalls_self_sink (grow : Nat → Nat) : ∀ (calls : List Call) (h : Heap) (p : Nat)
    (s : SpyLogger), h.loggers[p]? = some s → s.EventSink = some p →
    h.validSlice s.Records →
    (∀ r ∈ h.records p, ∀ a, r.Attributes = some a → a < h.maps.length) →
    (∀ c ∈ calls, WellFormedKV c.kv) →
    ∃ h1, runCalls grow (calls.map (fun c => (p, c))) h = (.ok (), h1) ∧
      (h1.records p).map h1.view =
        (h.records p).map h.view ++ calls.map (Call.expected s.Name)
  | [], h, p, s, _, _, _, _, _ => ⟨h, rfl, by simp⟩
  | c :: rest, h, p, s, hp, hs, hv, hrefs, hwf => by
    obtain ⟨h1, r, e, ha, hattr, hview⟩ :=
      emit_spec grow p s s p c h hp hs hp hv (hwf c (List.mem_cons_self _ _))
    obtain ⟨sl, hp1, hv1⟩ := ha.logger_sink hp
    have hrec : h1.records p = h.records p ++ [r] := ha.records_sink hp
    have hrefs1 : ∀ r0 ∈ h1.records p, ∀ a, r0.Attributes = some a → a < h1.maps.length := by
      intro r0 hr0 a hra
      rw [hrec, List.mem_append] at hr0
      rw [ha.maps_length]
      rcases hr0 with hold | hnew
      · exact Nat.lt_succ_of_lt (hrefs r0 hold a hra)
      · simp only [List.mem_singleton] at hnew
        subst hnew
        rw [hattr] at hra
        cases hra
        exact Nat.lt_succ_self _
    obtain ⟨h2, e2, hviews⟩ := runCalls_self_sink grow rest h1 p { s with Records := sl }
      hp1 hs hv1 hrefs1 (fun c hc => hwf c (List.mem_cons_of_mem _ hc))
    refine ⟨h2, ?_, ?_⟩
    · simp only [List.map_cons, runCalls, e, e2]
    · rw [hviews, hrec, List.map_append, List.map_cons, List.map_nil, hview, List.map_cons,
        List.append_assoc, List.singleton_append]
      congr 1
      apply List.map_congr_left
      intro r0 hr0
      exact ha.view_old r0 (hrefs r0 hr0)

/-- C1: on a root created by `NewSpy` (in any heap), every sequence of
emission calls made directly on the root with well-formed key/value lists runs
to the end without a panic; afterwards the root's `Records` has as many
elements as there were calls, and its elements, in order, are the records
built from the calls (logger name of the root, level, message, error and the
mapping built from the call's key/value list). -/
theorem C1_root_emissions_recorded_in_order (grow : Nat → Nat) (h0 : Heap) (calls : List Call)
    (hwf : ∀ c ∈ calls, WellFormedKV c.kv) :
    ∃ h1, runCalls grow (calls.map (fun c => ((NewSpy h0).1, c))) (NewSpy h0).2 = (.ok (), h1) ∧
      (h1.records (NewSpy h0).1).length = calls.length ∧
      (h1.records (NewSpy h0).1).map h1.view = calls.map (Call.expected "") := by
  have hp : (NewSpy h0).2.loggers[(NewSpy h0).1]? =
      some { Name := "", Attributes := none, Records := Slice.nil,
             EventSink := some (NewSpy h0).1 } := by
    simp [NewSpy]
  have hrec0 : (NewSpy h0).2.records (NewSpy h0).1 = [] := by
    simp only [Heap.records, hp, Heap.readSlice, Slice.nil, List.take_zero]
  obtain ⟨h1, e, hviews⟩ := runCalls_self_sink grow calls (NewSpy h0).2 (NewSpy h0).1 _ hp rfl
    (by simp [Heap.validSlice, Slice.nil]) (by rw [hrec0]; simp) hwf
  refine ⟨h1, e, ?_, ?_⟩
  · have := congrArg List.length hviews
    simpa [hrec0] using this
  · simpa [hrec0] using hviews

/-- C1 at the example scenario: an `Info` with one pair, then an `Error`, on a
root created in the empty heap, with the doubling capacity policy. -/
theorem C1_root_emissions_witness :
    (∀ c ∈ exampleCalls, WellFormedKV c.kv) ∧
    ∃ h1, runCalls doubling (exampleCalls.map (fun c => ((NewSpy Heap.empty).1, c)))
        (NewSpy Heap.empty).2 = (.ok (), h1) ∧
      (h1.records (NewSpy Heap.empty).1).length = exampleCalls.length ∧
      (h1.records (NewSpy Heap.empty).1).map h1.view = exampleCalls.map (Call.expected "") :=
  ⟨by decide, C1_root_emissions_recorded_in_order doubling Heap.empty exampleCalls (by decide)⟩


/-- C2 (the code at the failing input): in the test
`root := NewSpy(); a := root.WithName(na); b := root.WithName(nb);
a.Info("first"); b.Info("second")` no call panics, and afterwards
`root.Records` is empty: `a.EventSink` and `b.EventSink` are the addresses of
two separate copies of the root (the value receivers of the two `WithName`
calls), and each record was appended to the `Records` of one of the copies. -/
theorem C2_named_loggers_leave_root_empty (grow : Nat → Nat) (na nb : String) :
    (twoNamedLoggers grow na nb).1 = .ok (0, 2, 4) ∧
    (twoNamedLoggers grow na nb).2.records 0 = [] ∧
    ((twoNamedLoggers grow na nb).2.loggers[2]?).map SpyLogger.EventSink = some (some 1) ∧
    ((twoNamedLoggers grow na nb).2.loggers[4]?).map SpyLogger.EventSink = some (some 3) ∧
    ((twoNamedLoggers grow na nb).2.records 1).map LogRecord.Message = ["first"] ∧
    ((twoNamedLoggers grow na nb).2.records 3).map LogRecord.Message = ["second"] :=
  ⟨rfl, rfl, rfl, rfl, rfl, rfl⟩


/-- C3 (the code at the failing input): in the test
`root := NewSpy(); d := root.WithValues("k", "v").WithName("x").WithCaller();
root.Info("r1"); d.Info("d1"); root.Info("r2")` no call panics, and afterwards
`root.Records` holds the two records of the root only: the record emitted
through the derived logger `d` was appended to the `Records` of the struct
`d.EventSink` points to, a copy of the logger returned by `WithValues`, and is
absent from `root.Records`. -/
theorem C3_chained_logger_misses_root (grow : Nat → Nat) :
    (chainedLogger grow).1 = .ok (0, 5) ∧
    ((chainedLogger grow).2.records 0).map LogRecord.Message = ["r1", "r2"] ∧
    ((chainedLogger grow).2.loggers[5]?).map SpyLogger.EventSink = some (some 3) ∧
    ((chainedLogger grow).2.records 3).map LogRecord.Message = ["d1"] := by
  have key : ∀ n : Nat, (1 < grow 0 → max (grow 0) 1 - 1 = n + 1) →
      ((chainedLogger grow).2.records 0).map LogRecord.Message = ["r1", "r2"] ∧
      ((chainedLogger grow).2.loggers[5]?).map SpyLogger.EventSink = some (some 3) ∧
      ((chainedLogger grow).2.records 3).map LogRecord.Message = ["d1"] := by
    intro n hn
    by_cases hg : 1 < grow 0
    · have hn1 := hn hg
      simp [chainedLogger, Outcome.andThen, derivedByName, derivedByValues, derivedByCaller,
        viaPointer, NewSpy, Heap.empty, SpyLogger.WithName, SpyLogger.WithValues,
        SpyLogger.WithCaller, emit, SpyLogger.Info, NewRecord, Heap.makeMap,
        LogRecord.WithValues, assignPairs, SpyLogger.AddRecord, Heap.appendRecord, Slice.nil,
        Heap.records, Heap.readSlice, copyEntries, Heap.attrs, Heap.mapSet, Heap.mapAt, hg,
        hn1, List.replicate_succ]
    · simp [chainedLogger, Outcome.andThen, derivedByName, derivedByValues, derivedByCaller,
        viaPointer, NewSpy, Heap.empty, SpyLogger.WithName, SpyLogger.WithValues,
        SpyLogger.WithCaller, emit, SpyLogger.Info, NewRecord, Heap.makeMap,
        LogRecord.WithValues, assignPairs, SpyLogger.AddRecord, Heap.appendRecord, Slice.nil,
        Heap.records, Heap.readSlice, copyEntries, Heap.attrs, Heap.mapSet, Heap.mapAt, hg]
  exact ⟨rfl, key (grow 0 - 2) (fun hg => by omega)⟩


/-- C4: for a logger `s` (at address `p`) whose `EventSink` points to a logger
with a valid `Records` header, and a well-formed key/value list, each emission
method returns without a panic and appends exactly one record to the sink's
`Records`; the record appended by `Error(err, msg, ...)` has level `ERROR`,
message `msg`, logger name `s.Name` and error `err`; the record appended by
`Info`, `Debug`, `Trace` has level `INFO`, `DEBUG`, `TRACE`, message `msg`,
logger name `s.Name` and no error. -/
theorem C4_emitted_record_fields (grow : Nat → Nat) (h : Heap) (p q : Nat)
    (s sink : SpyLogger) (err : Option GoError) (msg : String) (kv : List Value)
    (hp : h.loggers[p]? = some s) (hs : s.EventSink = some q)
    (hq : h.loggers[q]? = some sink) (hv : h.validSlice sink.Records)
    (hwf : WellFormedKV kv) :
    (∃ h1 r, SpyLogger.Error grow p err msg kv h = (.ok (), h1) ∧
      h1.records q = h.records q ++ [r] ∧
      r.Level = "ERROR" ∧ r.Message = msg ∧ r.LoggerName = s.Name ∧ r.Error = err) ∧
    (∃ h1 r, SpyLogger.Info grow s msg kv h = (.ok (), h1) ∧
      h1.records q = h.records q ++ [r] ∧
      r.Level = "INFO" ∧ r.Message = msg ∧ r.LoggerName = s.Name ∧ r.Error = none) ∧
    (∃ h1 r, SpyLogger.Debug grow s msg kv h = (.ok (), h1) ∧
      h1.records q = h.records q ++ [r] ∧
      r.Level = "DEBUG" ∧ r.Message = msg ∧ r.LoggerName = s.Name ∧ r.Error = none) ∧
    (∃ h1 r, SpyLogger.Trace grow s msg kv h = (.ok (), h1) ∧
      h1.records q = h.records q ++ [r] ∧
      r.Level = "TRACE" ∧ r.Message = msg ∧ r.LoggerName = s.Name ∧ r.Error = none) := by
  refine ⟨?_, ?_, ?_, ?_⟩
  · obtain ⟨h1, e, ha⟩ := Error_spec grow p s sink q err msg kv h hp hs hq hv hwf
    exact ⟨h1, _, e, ha.records_sink hq, rfl, rfl, rfl, rfl⟩
  · obtain ⟨h1, e, ha⟩ := Info_spec grow s sink q msg kv h hs hq hv hwf
    exact ⟨h1, _, e, ha.records_sink hq, rfl, rfl, rfl, rfl⟩
  · obtain ⟨h1, e, ha⟩ := Debug_spec grow s sink q msg kv h hs hq hv hwf
    exact ⟨h1, _, e, ha.records_sink hq, rfl, rfl, rfl, rfl⟩
  · obtain ⟨h1, e, ha⟩ := Trace_spec grow s sink q msg kv h hs hq hv hwf
    exact ⟨h1, _, e, ha.records_sink hq, rfl, rfl, rfl, rfl⟩

/-- C4 at the logger `svc` derived by `WithName` from a fresh root, whose sink
is the copy of the root at address 1. -/
theorem C4_emitted_record_fields_witness :
    (namedHeap.loggers[2]? = some svcLogger ∧ svcLogger.EventSink = some 1 ∧
      namedHeap.loggers[1]? = some rootCopy ∧ namedHeap.validSlice rootCopy.Records ∧
      WellFormedKV [.str "attempt", .int 1]) ∧
    ((∃ h1 r, SpyLogger.Error doubling 2 (some ⟨"boom"⟩) "failed" [.str "attempt", .int 1]
        namedHeap = (.ok (), h1) ∧
      h1.records 1 = namedHeap.records 1 ++ [r] ∧
      r.Level = "ERROR" ∧ r.Message = "failed" ∧ r.LoggerName = svcLogger.Name ∧
      r.Error = some ⟨"boom"⟩) ∧
    (∃ h1 r, SpyLogger.Info doubling svcLogger "failed" [.str "attempt", .int 1]
        namedHeap = (.ok (), h1) ∧
      h1.records 1 = namedHeap.records 1 ++ [r] ∧
      r.Level = "INFO" ∧ r.Message = "failed" ∧ r.LoggerName = svcLogger.Name ∧
      r.Error = none) ∧
    (∃ h1 r, SpyLogger.Debug doubling svcLogger "failed" [.str "attempt", .int 1]
        namedHeap = (.ok (), h1) ∧
      h1.records 1 = namedHeap.records 1 ++ [r] ∧
      r.Level = "DEBUG" ∧ r.Message = "failed" ∧ r.LoggerName = svcLogger.Name ∧
      r.Error = none) ∧
    (∃ h1 r, SpyLogger.Trace doubling svcLogger "failed" [.str "attempt", .int 1]
        namedHeap = (.ok (), h1) ∧
      h1.records 1 = namedHeap.records 1 ++ [r] ∧
      r.Level = "TRACE" ∧ r.Message = "failed" ∧ r.LoggerName = svcLogger.Name ∧
      r.Error = none)) :=
  ⟨⟨by decide, rfl, by decide, by decide, by decide⟩,
   C4_emitted_record_fields doubling namedHeap 2 1 svcLogger rootCopy (some ⟨"boom"⟩) "failed"
     [.str "attempt", .int 1] (by decide) rfl (by decide) (by decide) (by decide)⟩


/-! ## Contents of the attribute maps -/

theorem lookup_insertPairs : ∀ (kv : List Value), WellFormedKV kv → ∀ (m : GoMap)
    (key : String),
    (insertPairs kv m).lookup key = (lastValue key kv).or (m.lookup key) := by
  intro kv
  induction kv using pairs_induction with
  | h0 => intro _ m key; simp [insertPairs, lastValue]
  | h1 k => intro hwf; exact absurd hwf (not_wellFormedKV_single k)
  | h2 k v rest ih =>
    intro hwf m key
    rw [wellFormedKV_cons_cons] at hwf
    obtain ⟨hk, hrest⟩ := hwf
    cases k with
    | str k0 =>
      simp only [insertPairs, lastValue]
      rw [ih hrest]
      cases hl : lastValue key rest with
      | some w => simp
      | none =>
        by_cases hkey : k0 = key
        · subst hkey; simp
        · have hne : key ≠ k0 := fun e => hkey e.symm
          simp [hkey, AList.lookup_insert_ne hne]
    | nil => simp [Value.isString] at hk
    | int i => simp [Value.isString] at hk
    | bool b => simp [Value.isString] at hk

theorem lookup_mapOfPairs (kv : List Value) (hwf : WellFormedKV kv) (key : String) :
    (mapOfPairs kv).lookup key = lastValue key kv := by
  rw [mapOfPairs, lookup_insertPairs kv hwf]
  simp

/-- C5: for a logger `s` (at address `p`) with any bound `Attributes`, whose
`EventSink` points to a logger with a valid `Records` header, every emission
call with a well-formed key/value list appends one record to the sink whose
attribute map is the mapping built from the list alone: each key is mapped to
the value following its last occurrence in the call's list, whatever the
logger has bound. -/
theorem C5_record_attributes_from_call_only (grow : Nat → Nat) (h : Heap) (p q : Nat)
    (s sink : SpyLogger) (c : Call)
    (hp : h.loggers[p]? = some s) (hs : s.EventSink = some q)
    (hq : h.loggers[q]? = some sink) (hv : h.validSlice sink.Records)
    (hwf : WellFormedKV c.kv) :
    ∃ h1 r, emit grow p c h = (.ok (), h1) ∧
      h1.records q = h.records q ++ [r] ∧
      h1.attrs r.Attributes = mapOfPairs c.kv ∧
      ∀ key, (h1.attrs r.Attributes).lookup key = lastValue key c.kv := by
  obtain ⟨h1, r, e, ha, hattr, hview⟩ := emit_spec grow p s sink q c h hp hs hq hv hwf
  have hmap : h1.attrs r.Attributes = mapOfPairs c.kv := by
    rw [hattr, ha.attrs_new]
  refine ⟨h1, r, e, ha.records_sink hq, hmap, ?_⟩
  intro key
  rw [hmap, lookup_mapOfPairs _ hwf]


/-- C5 at the logger `bound`, which has `k` bound to `v`, and the call
`Info("retry", "attempt", 1)`. -/
theorem C5_record_attributes_witness :
    (boundHeap.loggers[2]? = some boundLogger ∧ boundLogger.EventSink = some 1 ∧
      boundHeap.loggers[1]? = some rootCopy ∧ boundHeap.validSlice rootCopy.Records ∧
      WellFormedKV retryCall.kv ∧
      (boundHeap.attrs boundLogger.Attributes).lookup "k" = some (.str "v")) ∧
    ∃ h1 r, emit doubling 2 retryCall boundHeap = (.ok (), h1) ∧
      h1.records 1 = boundHeap.records 1 ++ [r] ∧
      h1.attrs r.Attributes = mapOfPairs retryCall.kv ∧
      ∀ key, (h1.attrs r.Attributes).lookup key = lastValue key retryCall.kv :=
  ⟨⟨by decide, rfl, by decide, by decide, by decide, by decide⟩,
   C5_record_attributes_from_call_only doubling boundHeap 2 1 boundLogger rootCopy retryCall
     (by decide) rfl (by decide) (by decide) (by decide)⟩


theorem foldl_mapSet (a : Nat) : ∀ (l : List (Sigma fun _ : String => Value)) (h : Heap),
    a < h.maps.length →
    l.foldl (fun hh e => hh.mapSet a e.1 e.2) h =
      { h with maps := h.maps.set a (l.foldl (fun m e => m.insert e.1 e.2) (h.mapAt a)) }
  | [], h, ha => by
    simp [Heap.mapAt, List.getD_eq_getElem?_getD, ha, list_set_self]
  | e :: t, h, ha => by
    rw [List.foldl_cons, foldl_mapSet a t (h.mapSet a e.1 e.2)
      (by rw [maps_length_mapSet]; exact ha), mapAt_mapSet_same h a e.1 e.2 ha]
    simp [Heap.mapSet]

theorem copyEntries_eq (a : Nat) (src : GoMap) (h : Heap) (ha : a < h.maps.length) :
    copyEntries a src h = { h with maps := h.maps.set a (copyInto src (h.mapAt a)) } :=
  foldl_mapSet a src.entries h ha

theorem lookup_foldl_insert (key : String) :
    ∀ (l : List (Sigma fun _ : String => Value)), l.NodupKeys → ∀ (dst : GoMap),
    (l.foldl (fun m e => m.insert e.1 e.2) dst).lookup key =
      (l.dlookup key).or (dst.lookup key)
  | [], _, dst => by simp
  | e :: t, hnd, dst => by
    rw [List.nodupKeys_cons] at hnd
    obtain ⟨hnot, ht⟩ := hnd
    rw [List.foldl_cons, lookup_foldl_insert key t ht]
    by_cases hkey : key = e.1
    · subst hkey
      have : t.dlookup e.1 = none := List.dlookup_eq_none.mpr hnot
      obtain ⟨k, v⟩ := e
      simp [this]
    · obtain ⟨k, v⟩ := e
      have hne : k ≠ key := fun e => hkey e.symm
      simp [List.dlookup_cons_ne _ _ hkey, AList.lookup_insert_ne hkey]

theorem lookup_copyInto (src dst : GoMap) (key : String) :
    (copyInto src dst).lookup key = (src.lookup key).or (dst.lookup key) :=
  lookup_foldl_insert key src.entries src.nodupKeys dst

theorem WithValues_spec (s : SpyLogger) (kv : List Value) (h : Heap) (hwf : WellFormedKV kv) :
    s.WithValues kv h =
      (.ok (h.loggers.length + 1),
       { loggers := h.loggers ++
           [s, { Name := s.Name, Attributes := some h.maps.length, Records := Slice.nil,
                 EventSink := some h.loggers.length }],
         maps := h.maps ++ [insertPairs kv (copyInto (h.attrs s.Attributes) ∅)],
         arrays := h.arrays }) := by
  simp only [SpyLogger.WithValues, Heap.makeMap]
  rw [copyEntries_eq _ _ _ (by simp)]
  rw [assignPairs_ok _ _ _ (by simp) hwf]
  simp [Heap.mapAt, List.getD_eq_getElem?_getD]


theorem lastValue_eq_none_iff (key : String) : ∀ (kv : List Value), kv.length % 2 = 0 →
    (lastValue key kv = none ↔ ∀ i, kv[2 * i]? ≠ some (Value.str key)) := by
  intro kv
  induction kv using pairs_induction with
  | h0 => intro _; simp [lastValue]
  | h1 k => intro h; simp at h
  | h2 k v rest ih =>
    intro heven
    have hrest : rest.length % 2 = 0 := by
      simp only [List.length_cons] at heven; omega
    simp only [lastValue]
    constructor
    · intro hnone i
      cases hl : lastValue key rest with
      | some w => rw [hl] at hnone; cases hnone
      | none =>
        rw [hl] at hnone
        match i with
        | 0 =>
          intro hk
          simp only [Nat.mul_zero, List.getElem?_cons_zero, Option.some.injEq] at hk
          simp [hk] at hnone
        | j + 1 =>
          have := (ih hrest).mp hl j
          simpa [Nat.mul_add] using this
    · intro hall
      have hr : lastValue key rest = none := by
        apply (ih hrest).mpr
        intro i
        have := hall (i + 1)
        simpa [Nat.mul_add] using this
      have h0 := hall 0
      simp only [Nat.mul_zero, List.getElem?_cons_zero, ne_eq, Option.some.injEq] at h0
      simp [hr, h0]

theorem lastValue_at (key : String) : ∀ (kv : List Value), kv.length % 2 = 0 → ∀ (i : Nat),
    kv[2 * i]? = some (Value.str key) →
    (∀ j, i < j → kv[2 * j]? ≠ some (Value.str key)) →
    lastValue key kv = kv[2 * i + 1]? := by
  intro kv
  induction kv using pairs_induction with
  | h0 => intro _ i hi; simp at hi
  | h1 k => intro h; simp at h
  | h2 k v rest ih =>
    intro heven i hi hlast
    have hrest : rest.length % 2 = 0 := by
      simp only [List.length_cons] at heven; omega
    simp only [lastValue]
    match i, hi, hlast with
    | 0, hi, hlast =>
      have hr : lastValue key rest = none := by
        apply (lastValue_eq_none_iff key rest hrest).mpr
        intro j
        have := hlast (j + 1) (Nat.succ_pos j)
        simpa [Nat.mul_add] using this
      simp only [Nat.mul_zero, List.getElem?_cons_zero, Option.some.injEq] at hi
      simp [hr, hi]
    | j + 1, hi, hlast =>
      have hi1 : rest[2 * j]? = some (Value.str key) := by
        simpa [Nat.mul_add] using hi
      have hlast1 : ∀ j1, j < j1 → rest[2 * j1]? ≠ some (Value.str key) := by
        intro j1 hj1
        have := hlast (j1 + 1) (by omega)
        simpa [Nat.mul_add] using this
      have hres := ih hrest j hi1 hlast1
      have hlt : 2 * j + 1 < rest.length := by
        have : 2 * j < rest.length := by
          by_contra hcon
          have : rest[2 * j]? = none := by simp; omega
          rw [this] at hi1; cases hi1
        omega
      have hsome : rest[2 * j + 1]? = some rest[2 * j + 1] := List.getElem?_eq_getElem hlt
      rw [hres, hsome]
      have : 2 * (j + 1) + 1 = (2 * j + 1) + 1 + 1 := by omega
      rw [this]
      simp [hsome]

theorem getElem?_append_pair_fst {α : Type} (l : List α) (a b : α) :
    (l ++ [a, b])[l.length]? = some a := by
  rw [List.getElem?_append_right (Nat.le_refl _)]
  simp

theorem getElem?_append_pair_snd {α : Type} (l : List α) (a b : α) :
    (l ++ [a, b])[l.length + 1]? = some b := by
  rw [List.getElem?_append_right (Nat.le_succ _)]
  simp

/-- C7: for every logger `s` and every well-formed key/value list `kv`,
`s.WithValues(kv...)` returns a logger with the name of `s` whose attribute
map holds: every key of `kv`, mapped to its value in `kv` (the value that
follows its last occurrence when the key is repeated in `kv`), whatever `s`
has bound to it; and for every key not in `kv`, exactly what `s` has bound to
it (the value of `s`, or nothing when `s` has none). -/
theorem C7_WithValues_name_and_merged_attributes (s : SpyLogger) (kv : List Value) (h : Heap)
    (hwf : WellFormedKV kv) :
    ∃ d h1 res, s.WithValues kv h = (.ok d, h1) ∧ h1.loggers[d]? = some res ∧
      res.Name = s.Name ∧
      (∀ i key, kv[2 * i]? = some (Value.str key) →
        (∀ j, i < j → kv[2 * j]? ≠ some (Value.str key)) →
        (h1.attrs res.Attributes).lookup key = kv[2 * i + 1]?) ∧
      (∀ key, (∀ i, kv[2 * i]? ≠ some (Value.str key)) →
        (h1.attrs res.Attributes).lookup key = (h.attrs s.Attributes).lookup key) := by
  refine ⟨_, _, ⟨s.Name, some h.maps.length, Slice.nil, some h.loggers.length⟩,
    WithValues_spec s kv h hwf, ?_, rfl, ?_, ?_⟩
  · exact getElem?_append_pair_snd _ _ _
  · intro i key hi hlast
    simp only [Heap.attrs, Heap.mapAt, List.getD_eq_getElem?_getD, List.getElem?_concat_length,
      Option.getD_some]
    rw [lookup_insertPairs kv hwf, lastValue_at key kv hwf.1 i hi hlast]
    have hlt : 2 * i + 1 < kv.length := by
      have : 2 * i < kv.length := by
        by_contra hcon
        have : kv[2 * i]? = none := by simp; omega
        rw [this] at hi; cases hi
      have := hwf.1
      omega
    simp [List.getElem?_eq_getElem hlt]
  · intro key hnot
    simp only [Heap.attrs, Heap.mapAt, List.getD_eq_getElem?_getD, List.getElem?_concat_length,
      Option.getD_some]
    rw [lookup_insertPairs kv hwf, (lastValue_eq_none_iff key kv hwf.1).mpr hnot,
      lookup_copyInto]
    simp


/-- C7 at the logger `bound`, which has `k` bound to `v`, and a list that
rebinds `k` and adds `attempt`. -/
theorem C7_WithValues_witness :
    WellFormedKV rebindKV ∧
    ∃ d h1 res, boundLogger.WithValues rebindKV boundHeap = (.ok d, h1) ∧
      h1.loggers[d]? = some res ∧
      res.Name = boundLogger.Name ∧
      (∀ i key, rebindKV[2 * i]? = some (Value.str key) →
        (∀ j, i < j → rebindKV[2 * j]? ≠ some (Value.str key)) →
        (h1.attrs res.Attributes).lookup key = rebindKV[2 * i + 1]?) ∧
      (∀ key, (∀ i, rebindKV[2 * i]? ≠ some (Value.str key)) →
        (h1.attrs res.Attributes).lookup key =
          (boundHeap.attrs boundLogger.Attributes).lookup key) :=
  ⟨by decide, C7_WithValues_name_and_merged_attributes boundLogger rebindKV boundHeap
    (by decide)⟩


/-- C6 fails as stated: in the test
`root := NewSpy(); d := root.WithValues("k", "v"); d.Info("m")` the one record
produced (in the `Records` of the struct `d.EventSink` points to) has an
attribute map without the key `k`, while the attribute map accumulated by `d`
binds `k` to `v`: the record's attributes are not the accumulated values. -/
theorem C6_record_lacks_bound_values :
    (boundThenInfo doubling).1 = .ok (0, 2) ∧
    ∃ r d, (boundThenInfo doubling).2.records 1 = [r] ∧
      (boundThenInfo doubling).2.loggers[2]? = some d ∧
      d.EventSink = some 1 ∧
      ((boundThenInfo doubling).2.attrs d.Attributes).lookup "k" = some (Value.str "v") ∧
      ((boundThenInfo doubling).2.attrs r.Attributes).lookup "k" = none ∧
      (boundThenInfo doubling).2.attrs r.Attributes ≠
        (boundThenInfo doubling).2.attrs d.Attributes := by
  refine ⟨rfl, ⟨"", "INFO", "m", none, some 1⟩, ⟨"", some 0, Slice.nil, some 1⟩,
    by decide, by decide, rfl, by decide, by decide, ?_⟩
  intro hcon
  have h1 : ((boundThenInfo doubling).2.attrs (some 1)).lookup "k" = none := by decide
  have h2 : ((boundThenInfo doubling).2.attrs (some 0)).lookup "k" = some (Value.str "v") := by
    decide
  rw [hcon] at h1
  rw [h1] at h2
  cases h2

/-- C6 as amended: for every logger `s` with a valid `Records` header and all
well-formed lists `kv` and `c.kv`, `s.WithValues(kv...)` returns a logger `d`,
and one emission call `c` on `d` appends exactly one record to the `Records`
of the struct `d.EventSink` points to; the attribute map of that record is the
mapping built from the key/value list of the emission call alone (each key
mapped to the value following its last occurrence there). -/
theorem C6_bound_logger_record_from_call_only (grow : Nat → Nat) (s : SpyLogger)
    (kv : List Value) (c : Call) (h : Heap) (hv : h.validSlice s.Records)
    (hwf : WellFormedKV kv) (hc : WellFormedKV c.kv) :
    ∃ d h1 h2 r, s.WithValues kv h = (.ok d, h1) ∧
      (h1.loggers[d]?).map SpyLogger.EventSink = some (some h.loggers.length) ∧
      emit grow d c h1 = (.ok (), h2) ∧
      h2.records h.loggers.length = h1.records h.loggers.length ++ [r] ∧
      h2.attrs r.Attributes = mapOfPairs c.kv ∧
      ∀ key, (h2.attrs r.Attributes).lookup key = lastValue key c.kv := by
  have hd := getElem?_append_pair_snd h.loggers s
    ⟨s.Name, some h.maps.length, Slice.nil, some h.loggers.length⟩
  have hq := getElem?_append_pair_fst h.loggers s
    ⟨s.Name, some h.maps.length, Slice.nil, some h.loggers.length⟩
  obtain ⟨h2, r, e, ha, hattr, _⟩ := emit_spec grow (h.loggers.length + 1) _ s h.loggers.length c
    { loggers := h.loggers ++
        [s, ⟨s.Name, some h.maps.length, Slice.nil, some h.loggers.length⟩],
      maps := h.maps ++ [insertPairs kv (copyInto (h.attrs s.Attributes) ∅)],
      arrays := h.arrays } hd rfl hq hv hc
  have hmap : h2.attrs r.Attributes = mapOfPairs c.kv := by
    rw [hattr]
    have := ha.attrs_new
    simpa using this
  refine ⟨_, _, h2, r, WithValues_spec s kv h hwf, ?_, e, ha.records_sink hq, hmap, ?_⟩
  · rw [hd]; rfl
  · intro key
    rw [hmap, lookup_mapOfPairs _ hc]

/-- C6 as amended, at the logger `bound`, a list that rebinds `k`, and the call
`Info("retry", "attempt", 1)`. -/
theorem C6_bound_logger_record_witness :
    (boundHeap.validSlice boundLogger.Records ∧ WellFormedKV rebindKV ∧
      WellFormedKV retryCall.kv) ∧
    ∃ d h1 h2 r, boundLogger.WithValues rebindKV boundHeap = (.ok d, h1) ∧
      (h1.loggers[d]?).map SpyLogger.EventSink = some (some boundHeap.loggers.length) ∧
      emit doubling d retryCall h1 = (.ok (), h2) ∧
      h2.records boundHeap.loggers.length = h1.records boundHeap.loggers.length ++ [r] ∧
      h2.attrs r.Attributes = mapOfPairs retryCall.kv ∧
      ∀ key, (h2.attrs r.Attributes).lookup key = lastValue key retryCall.kv :=
  ⟨⟨by decide, by decide, by decide⟩,
   C6_bound_logger_record_from_call_only doubling boundLogger rebindKV retryCall boundHeap
     (by decide) (by decide) (by decide)⟩


/-- C8: for every logger `s`, whatever it has bound, and every name `x`,
`s.WithName(x)` returns a logger with name `x` and no attributes (the nil map:
no key is found in it); when the `Records` header of `s` is valid, an emission
call `c` made through it with a well-formed list appends one record, to the
`Records` of the struct its `EventSink` points to, whose logger name is `x`
and whose attribute map has no key outside the call's list: in particular no
key bound on `s`, unless that key is in the call's list. -/
theorem C8_WithName_drops_attributes (grow : Nat → Nat) (s : SpyLogger) (x : String)
    (c : Call) (h : Heap) (hv : h.validSlice s.Records) (hc : WellFormedKV c.kv) :
    ∃ res h2 r, (s.WithName x h).2.loggers[(s.WithName x h).1]? = some res ∧
      res.Name = x ∧ res.Attributes = none ∧
      (∀ key, ((s.WithName x h).2.attrs res.Attributes).lookup key = none) ∧
      emit grow (s.WithName x h).1 c (s.WithName x h).2 = (.ok (), h2) ∧
      h2.records h.loggers.length = (s.WithName x h).2.records h.loggers.length ++ [r] ∧
      r.LoggerName = x ∧
      ∀ key, (∀ i, c.kv[2 * i]? ≠ some (Value.str key)) →
        (h2.attrs r.Attributes).lookup key = none := by
  have hd := getElem?_append_pair_snd h.loggers s ⟨x, none, Slice.nil, some h.loggers.length⟩
  have hq := getElem?_append_pair_fst h.loggers s ⟨x, none, Slice.nil, some h.loggers.length⟩
  obtain ⟨h2, r, e, ha, hattr, hview⟩ := emit_spec grow (h.loggers.length + 1) _ s
    h.loggers.length c (s.WithName x h).2 hd rfl hq hv hc
  have hname : r.LoggerName = x := by
    have := congrArg RecordView.LoggerName hview
    cases c <;> exact this
  have hmap : h2.attrs r.Attributes = mapOfPairs c.kv := by
    have := congrArg RecordView.Attributes hview
    cases c <;> exact this
  refine ⟨_, h2, r, hd, rfl, rfl, ?_, e, ha.records_sink hq, hname, ?_⟩
  · intro key
    simp [Heap.attrs]
  · intro key hnot
    rw [hmap, lookup_mapOfPairs _ hc, (lastValue_eq_none_iff key c.kv hc.1).mpr hnot]

/-- C8 at the logger `bound`, which has `k` bound to `v`, the name `x`, and the
call `Info("retry", "attempt", 1)`. -/
theorem C8_WithName_witness :
    (boundHeap.validSlice boundLogger.Records ∧ WellFormedKV retryCall.kv ∧
      (boundHeap.attrs boundLogger.Attributes).lookup "k" = some (Value.str "v")) ∧
    ∃ res h2 r,
      (boundLogger.WithName "x" boundHeap).2.loggers[(boundLogger.WithName "x" boundHeap).1]? =
        some res ∧
      res.Name = "x" ∧ res.Attributes = none ∧
      (∀ key, ((boundLogger.WithName "x" boundHeap).2.attrs res.Attributes).lookup key = none) ∧
      emit doubling (boundLogger.WithName "x" boundHeap).1 retryCall
        (boundLogger.WithName "x" boundHeap).2 = (.ok (), h2) ∧
      h2.records boundHeap.loggers.length =
        (boundLogger.WithName "x" boundHeap).2.records boundHeap.loggers.length ++ [r] ∧
      r.LoggerName = "x" ∧
      ∀ key, (∀ i, retryCall.kv[2 * i]? ≠ some (Value.str key)) →
        (h2.attrs r.Attributes).lookup key = none :=
  ⟨⟨by decide, by decide, by decide⟩,
   C8_WithName_drops_attributes doubling boundLogger "x" retryCall boundHeap
     (by decide) (by decide)⟩


/-- C9 fails as stated: for the well-formed list `"a", 1, "a", 2` the key at
position 0 is `a` and the value at position 1 is `1`, but in the record
returned by `NewRecord` the key `a` is mapped to `2`. -/
theorem C9_repeated_key_first_pair_lost :
    WellFormedKV repeatedKeyKV ∧
    repeatedKeyKV[2 * 0]? = some (Value.str "a") ∧
    repeatedKeyKV[2 * 0 + 1]? = some (Value.int 1) ∧
    ∃ r h1, NewRecord "n" LogLevelInfo "m" none repeatedKeyKV Heap.empty = (.ok r, h1) ∧
      (h1.attrs r.Attributes).lookup "a" = some (Value.int 2) ∧
      (h1.attrs r.Attributes).lookup "a" ≠ repeatedKeyKV[2 * 0 + 1]? :=
  ⟨by decide, by decide, by decide, _, _, rfl, by decide, by decide⟩

/-- C9 as amended: for every name, level, message, error and every well-formed
key/value list, `NewRecord` returns a record with exactly that logger name,
level, message and error, whose attribute map contains every supplied key,
each mapped to the value that follows its last occurrence in the list: for
every `i` such that the key at position `2i` does not occur again at a later
even position, that key is mapped to the value at position `2i+1`. -/
theorem C9_NewRecord_fields_and_last_pairs (name : String) (level : LogLevel) (msg : String)
    (err : Option GoError) (kv : List Value) (h : Heap) (hwf : WellFormedKV kv) :
    ∃ r h1, NewRecord name level msg err kv h = (.ok r, h1) ∧
      r.LoggerName = name ∧ r.Level = level ∧ r.Message = msg ∧ r.Error = err ∧
      (∀ i key, kv[2 * i]? = some (Value.str key) →
        ((h1.attrs r.Attributes).lookup key).isSome = true) ∧
      (∀ i key, kv[2 * i]? = some (Value.str key) →
        (∀ j, i < j → kv[2 * j]? ≠ some (Value.str key)) →
        (h1.attrs r.Attributes).lookup key = kv[2 * i + 1]?) ∧
      (∀ key, (h1.attrs r.Attributes).lookup key = lastValue key kv) := by
  have hattrs : ({ h with maps := h.maps ++ [mapOfPairs kv] } : Heap).attrs
      (some h.maps.length) = mapOfPairs kv := by
    simp [Heap.attrs, Heap.mapAt, List.getD_eq_getElem?_getD]
  refine ⟨_, _, NewRecord_ok name level msg err kv h hwf, rfl, rfl, rfl, rfl, ?_, ?_, ?_⟩
  · intro i key hi
    simp only [hattrs]
    rw [lookup_mapOfPairs kv hwf]
    cases hl : lastValue key kv with
    | some v => rfl
    | none => exact absurd hi ((lastValue_eq_none_iff key kv hwf.1).mp hl i)
  · intro i key hi hlast
    simp only [hattrs]
    rw [lookup_mapOfPairs kv hwf, lastValue_at key kv hwf.1 i hi hlast]
  · intro key
    simp only [hattrs]
    exact lookup_mapOfPairs kv hwf key

/-- C9 as amended, at the list `"a", 1, "a", 2` with its repeated key. -/
theorem C9_NewRecord_witness :
    WellFormedKV repeatedKeyKV ∧
    ∃ r h1, NewRecord "n" LogLevelInfo "m" (some ⟨"boom"⟩) repeatedKeyKV boundHeap = (.ok r, h1) ∧
      r.LoggerName = "n" ∧ r.Level = LogLevelInfo ∧ r.Message = "m" ∧
      r.Error = some ⟨"boom"⟩ ∧
      (∀ i key, repeatedKeyKV[2 * i]? = some (Value.str key) →
        ((h1.attrs r.Attributes).lookup key).isSome = true) ∧
      (∀ i key, repeatedKeyKV[2 * i]? = some (Value.str key) →
        (∀ j, i < j → repeatedKeyKV[2 * j]? ≠ some (Value.str key)) →
        (h1.attrs r.Attributes).lookup key = repeatedKeyKV[2 * i + 1]?) ∧
      (∀ key, (h1.attrs r.Attributes).lookup key = lastValue key repeatedKeyKV) :=
  ⟨by decide, C9_NewRecord_fields_and_last_pairs "n" LogLevelInfo "m" (some ⟨"boom"⟩)
    repeatedKeyKV boundHeap (by decide)⟩

theorem wellFormedKV_iff (kv : List Value) :
    WellFormedKV kv ↔ ¬ (kv.length % 2 = 1 ∨
      ∃ i, 2 * i < kv.length ∧ (kv.getD (2 * i) Value.nil).isString = false) := by
  unfold WellFormedKV
  constructor
  · rintro ⟨heven, hall⟩ (hodd | ⟨i, hi, hns⟩)
    · omega
    · have := hall (2 * i) hi (by omega)
      rw [this] at hns
      cases hns
  · intro hnot
    refine ⟨?_, ?_⟩
    · by_contra hcon
      exact hnot (Or.inl (by omega))
    · intro i hi hpar
      by_contra hcon
      apply hnot
      refine Or.inr ⟨i / 2, ?_, ?_⟩
      · have : 2 * (i / 2) = i := by omega
        rw [this]; exact hi
      · have : 2 * (i / 2) = i := by omega
        rw [this]
        simpa using hcon

theorem NewRecord_error (name : String) (level : LogLevel) (msg : String)
    (err : Option GoError) (kv : List Value) (h : Heap) (hnot : ¬ WellFormedKV kv) :
    ∃ p h1, NewRecord name level msg err kv h = (.error p, h1) := by
  simp only [NewRecord, Heap.makeMap, LogRecord.WithValues]
  by_cases hodd : kv.length % 2 = 0
  · have hne := (assignPairs_ok_iff h.maps.length kv
      { h with maps := h.maps ++ [∅] }).not.mpr hnot
    simp only [hodd]
    rcases hres : assignPairs (some h.maps.length) kv { h with maps := h.maps ++ [∅] } with
      ⟨res, h2⟩
    rw [hres] at hne
    cases res with
    | error p => exact ⟨p, h2, by simp⟩
    | ok u => exact absurd rfl hne
  · have : (kv.length % 2 != 0) = true := by simpa using hodd
    exact ⟨Panic.notEven, { h with maps := h.maps ++ [∅] }, by simp [this]⟩

/-- C10: `NewRecord` panics, returning no record, exactly when the key/value
list has odd length or some even-indexed element of it is not a string; and it
returns a record exactly when neither is the case. -/
theorem C10_NewRecord_fails_iff_malformed (name : String) (level : LogLevel) (msg : String)
    (err : Option GoError) (kv : List Value) (h : Heap) :
    ((∃ p h1, NewRecord name level msg err kv h = (.error p, h1)) ↔
      (kv.length % 2 = 1 ∨
        ∃ i, 2 * i < kv.length ∧ (kv.getD (2 * i) Value.nil).isString = false)) ∧
    ((∃ r h1, NewRecord name level msg err kv h = (.ok r, h1)) ↔
      ¬ (kv.length % 2 = 1 ∨
        ∃ i, 2 * i < kv.length ∧ (kv.getD (2 * i) Value.nil).isString = false)) := by
  rw [← wellFormedKV_iff]
  by_cases hwf : WellFormedKV kv
  · have hok := NewRecord_ok name level msg err kv h hwf
    constructor
    · constructor
      · rintro ⟨p, h1, e⟩
        rw [hok] at e
        cases e
      · intro hbad
        exact absurd hwf ((wellFormedKV_iff kv).not_left.mpr hbad)
    · exact ⟨fun _ => hwf, fun _ => ⟨_, _, hok⟩⟩
  · obtain ⟨p, h1, e⟩ := NewRecord_error name level msg err kv h hwf
    constructor
    · constructor
      · intro _
        by_contra hcon
        exact hwf ((wellFormedKV_iff kv).mpr hcon)
      · intro _
        exact ⟨p, h1, e⟩
    · constructor
      · rintro ⟨r, h2, e2⟩
        rw [e] at e2
        cases e2
      · intro hw
        exact absurd hw hwf


/-! ## Malformed lists -/

theorem NewRecord_odd (name : String) (level : LogLevel) (msg : String) (err : Option GoError)
    (kv : List Value) (h : Heap) (hodd : kv.length % 2 = 1) :
    NewRecord name level msg err kv h =
      (.error .notEven, { h with maps := h.maps ++ [∅] }) := by
  have : (kv.length % 2 != 0) = true := by simp [hodd]
  simp [NewRecord, Heap.makeMap, LogRecord.WithValues, this]

/-- C11: for every logger (at address `p`) and every odd-length key/value
list, each emission call (`Error`, `Info`, `Debug`, `Trace`) panics with the
explicit "not even" panic, and the heap it leaves has the same loggers and the
same backing arrays: the `Records` of every logger, the sink included, is
exactly what it was before the call. -/
theorem C11_odd_list_emission_panics_appends_nothing (grow : Nat → Nat) (h : Heap) (p : Nat)
    (s : SpyLogger) (c : Call) (hp : h.loggers[p]? = some s) (hodd : c.kv.length % 2 = 1) :
    ∃ h1, emit grow p c h = (.error .notEven, h1) ∧
      h1.loggers = h.loggers ∧ h1.arrays = h.arrays ∧
      ∀ q, h1.records q = h.records q := by
  refine ⟨{ h with maps := h.maps ++ [∅] }, ?_, rfl, rfl, fun q => rfl⟩
  cases c with
  | Error err msg kv =>
    simp only [emit, SpyLogger.Error, hp, NewRecord_odd _ _ _ _ _ _ (show kv.length % 2 = 1 from hodd)]
  | Info msg kv =>
    simp only [emit, viaPointer, SpyLogger.Info, hp, NewRecord_odd _ _ _ _ _ _ (show kv.length % 2 = 1 from hodd)]
  | Debug msg kv =>
    simp only [emit, viaPointer, SpyLogger.Debug, hp, NewRecord_odd _ _ _ _ _ _ (show kv.length % 2 = 1 from hodd)]
  | Trace msg kv =>
    simp only [emit, viaPointer, SpyLogger.Trace, hp, NewRecord_odd _ _ _ _ _ _ (show kv.length % 2 = 1 from hodd)]


/-- C11 at the logger `svc` and a call whose list has a well-formed leading
pair and a dangling key. -/
theorem C11_odd_list_emission_witness :
    (namedHeap.loggers[2]? = some svcLogger ∧ oddCall.kv.length % 2 = 1) ∧
    ∃ h1, emit doubling 2 oddCall namedHeap = (.error .notEven, h1) ∧
      h1.loggers = namedHeap.loggers ∧ h1.arrays = namedHeap.arrays ∧
      ∀ q, h1.records q = namedHeap.records q :=
  ⟨⟨by decide, by decide⟩,
   C11_odd_list_emission_panics_appends_nothing doubling namedHeap 2 svcLogger oddCall
     (by decide) (by decide)⟩

theorem assignPairs_frame (m : Option Nat) : ∀ (kv : List Value) (h : Heap),
    (assignPairs m kv h).2.loggers = h.loggers ∧
    (assignPairs m kv h).2.arrays = h.arrays ∧
    (assignPairs m kv h).2.maps.length = h.maps.length ∧
    ∀ b, m ≠ some b → (assignPairs m kv h).2.maps[b]? = h.maps[b]? := by
  intro kv
  induction kv using pairs_induction with
  | h0 => intro h; simp [assignPairs]
  | h1 k => intro h; cases k <;> simp [assignPairs]
  | h2 k v rest ih =>
    intro h
    cases k with
    | str key =>
      cases m with
      | none => simp [assignPairs]
      | some a =>
        simp only [assignPairs]
        obtain ⟨e1, e2, e3, e4⟩ := ih (h.mapSet a key v)
        refine ⟨e1, e2, ?_, ?_⟩
        · rw [e3, maps_length_mapSet]
        · intro b hb
          rw [e4 b hb]
          have hne : a ≠ b := fun e => hb (by rw [e])
          simp [Heap.mapSet, List.getElem?_set_ne hne]
    | nil => simp [assignPairs]
    | int i => simp [assignPairs]
    | bool b => simp [assignPairs]

theorem copyEntries_frame (a : Nat) (src : GoMap) (h : Heap) :
    (copyEntries a src h).loggers = h.loggers ∧
    (copyEntries a src h).arrays = h.arrays ∧
    (copyEntries a src h).maps.length = h.maps.length ∧
    ∀ b, a ≠ b → (copyEntries a src h).maps[b]? = h.maps[b]? := by
  unfold copyEntries
  generalize src.entries = l
  induction l generalizing h with
  | nil => simp
  | cons e t ih =>
    obtain ⟨e1, e2, e3, e4⟩ := ih (h.mapSet a e.1 e.2)
    rw [List.foldl_cons]
    refine ⟨e1, e2, ?_, ?_⟩
    · rw [e3, maps_length_mapSet]
    · intro b hb
      rw [e4 b hb]
      simp [Heap.mapSet, List.getElem?_set_ne hb]

theorem WithValues_frame (s : SpyLogger) (kv : List Value) (h : Heap) :
    (s.WithValues kv h).2.loggers = h.loggers ++
      [s, { Name := s.Name, Attributes := some h.maps.length, Records := Slice.nil,
            EventSink := some h.loggers.length }] ∧
    (s.WithValues kv h).2.arrays = h.arrays ∧
    ∀ b, b < h.maps.length → (s.WithValues kv h).2.maps[b]? = h.maps[b]? := by
  have hsnd : ∀ (o : Outcome Unit) (d : Nat),
      (match o with
        | (.error e, h4) => ((.error e, h4) : Outcome Nat)
        | (.ok (), h4) => (.ok d, h4)).2 = o.2 := by
    intro o d
    rcases o with ⟨res, h4⟩
    cases res <;> rfl
  simp only [SpyLogger.WithValues, Heap.makeMap, hsnd]
  obtain ⟨a1, a2, _, a4⟩ := assignPairs_frame (some h.maps.length) kv
    (copyEntries h.maps.length (h.attrs s.Attributes)
      { loggers := h.loggers ++
          [s, { Name := s.Name, Attributes := some h.maps.length, Records := Slice.nil,
                EventSink := some h.loggers.length }],
        maps := h.maps ++ [∅], arrays := h.arrays })
  obtain ⟨c1, c2, _, c4⟩ := copyEntries_frame h.maps.length (h.attrs s.Attributes)
    { loggers := h.loggers ++
        [s, { Name := s.Name, Attributes := some h.maps.length, Records := Slice.nil,
              EventSink := some h.loggers.length }],
      maps := h.maps ++ [∅], arrays := h.arrays }
  refine ⟨by rw [a1, c1], by rw [a2, c2], ?_⟩
  intro b hb
  have hne : h.maps.length ≠ b := by omega
  rw [a4 b (by simpa using hne), c4 b hne]
  exact List.getElem?_append_left hb


theorem assignPairs_error_kind (m : Option Nat) : ∀ (kv : List Value) (h : Heap) (e : Panic),
    (assignPairs m kv h).1 = .error e → e ≠ Panic.notEven := by
  intro kv
  induction kv using pairs_induction with
  | h0 => intro h e he; simp [assignPairs] at he
  | h1 k =>
    intro h e he
    cases k <;> simp [assignPairs] at he <;> subst he <;> decide
  | h2 k v rest ih =>
    intro h e he
    cases k with
    | str key =>
      cases m with
      | none => simp [assignPairs] at he; subst he; decide
      | some a => exact ih (h.mapSet a key v) e (by simpa [assignPairs] using he)
    | nil => simp [assignPairs] at he; subst he; decide
    | int i => simp [assignPairs] at he; subst he; decide
    | bool b => simp [assignPairs] at he; subst he; decide

theorem WithValues_error (s : SpyLogger) (kv : List Value) (h : Heap)
    (hnot : ¬ WellFormedKV kv) :
    ∃ e h1, s.WithValues kv h = (.error e, h1) ∧ e ≠ Panic.notEven := by
  simp only [SpyLogger.WithValues, Heap.makeMap]
  generalize hh3 : copyEntries h.maps.length (h.attrs s.Attributes)
    { loggers := h.loggers ++
        [s, { Name := s.Name, Attributes := some h.maps.length, Records := Slice.nil,
              EventSink := some h.loggers.length }],
      maps := h.maps ++ [∅], arrays := h.arrays } = h3
  have hne := (assignPairs_ok_iff h.maps.length kv h3).not.mpr hnot
  have hkind := assignPairs_error_kind (some h.maps.length) kv h3
  rcases hres : assignPairs (some h.maps.length) kv h3 with ⟨res, h4⟩
  rw [hres] at hne hkind
  cases res with
  | error e => exact ⟨e, h4, rfl, hkind e rfl⟩
  | ok u => exact absurd rfl hne

/-- C12: `SpyLogger.WithValues` panics, returning no logger, exactly when its
key/value list has odd length or some even-indexed element of it is not a
string, and returns a logger exactly when neither is the case; so it panics
for every odd-length list.  The panic is never the explicit "not even" one (the
method has no length check): it comes from the key assertion or from reading
the value past the end of the list. -/
theorem C12_WithValues_fails_iff_malformed (s : SpyLogger) (kv : List Value) (h : Heap) :
    ((∃ e h1, s.WithValues kv h = (.error e, h1)) ↔
      (kv.length % 2 = 1 ∨
        ∃ i, 2 * i < kv.length ∧ (kv.getD (2 * i) Value.nil).isString = false)) ∧
    ((∃ d h1, s.WithValues kv h = (.ok d, h1)) ↔
      ¬ (kv.length % 2 = 1 ∨
        ∃ i, 2 * i < kv.length ∧ (kv.getD (2 * i) Value.nil).isString = false)) ∧
    ¬ (∃ h1, s.WithValues kv h = (.error Panic.notEven, h1)) := by
  rw [← wellFormedKV_iff]
  by_cases hwf : WellFormedKV kv
  · have hok := WithValues_spec s kv h hwf
    refine ⟨⟨?_, ?_⟩, ⟨fun _ => hwf, fun _ => ⟨_, _, hok⟩⟩, ?_⟩
    · rintro ⟨e, h1, he⟩
      rw [hok] at he
      cases he
    · intro hbad
      exact absurd hwf ((wellFormedKV_iff kv).not_left.mpr hbad)
    · rintro ⟨h1, he⟩
      rw [hok] at he
      cases he
  · obtain ⟨e, h1, he, hkind⟩ := WithValues_error s kv h hwf
    refine ⟨⟨?_, fun _ => ⟨e, h1, he⟩⟩, ⟨?_, fun hw => absurd hw hwf⟩, ?_⟩
    · intro _
      by_contra hcon
      exact hwf ((wellFormedKV_iff kv).mpr hcon)
    · rintro ⟨d, h2, e2⟩
      rw [he] at e2
      cases e2
    · rintro ⟨h2, e2⟩
      rw [he] at e2
      cases e2
      exact hkind rfl


/-! ## Frame properties -/

theorem getElem?_append_of_some {α : Type} (l t : List α) (p : Nat) (a : α)
    (hp : l[p]? = some a) : (l ++ t)[p]? = some a := by
  have hlt : p < l.length := by
    by_contra hcon
    have : l[p]? = none := by simp; omega
    rw [this] at hp
    cases hp
  rw [List.getElem?_append_left hlt, hp]

theorem attrs_eq_of_maps (h h1 : Heap) (ref : Option Nat)
    (hvalid : ∀ a, ref = some a → a < h.maps.length)
    (hmaps : ∀ b, b < h.maps.length → h1.maps[b]? = h.maps[b]?) :
    h1.attrs ref = h.attrs ref := by
  cases ref with
  | none => rfl
  | some a =>
    simp only [Heap.attrs, Heap.mapAt, List.getD_eq_getElem?_getD, hmaps a (hvalid a rfl)]

theorem records_eq_of_frame (h h1 : Heap) (p : Nat) (hl : h1.loggers[p]? = h.loggers[p]?)
    (ha : h1.arrays = h.arrays) : h1.records p = h.records p := by
  simp only [Heap.records, hl, Heap.readSlice, ha]

/-- C13: `WithValues` and `WithName` do not change their receiver.  For a
logger `s` at address `p` whose attribute map is a map of the heap, after
`s.WithValues(kv...)` (whether it returns or panics) and after `s.WithName(x)`
the struct at `p` is `s` (same `Name`, `Attributes` reference, `Records` header
and `EventSink`), the entries of the attribute map of `s` and the elements of
its `Records` are what they were; and the struct built by `WithValues` refers
to a newly made map, not to the map of `s`. -/
theorem C13_derivations_leave_receiver (s : SpyLogger) (p : Nat) (kv : List Value)
    (x : String) (h : Heap) (hp : h.loggers[p]? = some s)
    (hattr : ∀ a, s.Attributes = some a → a < h.maps.length) :
    ((s.WithValues kv h).2.loggers[p]? = some s ∧
      (s.WithValues kv h).2.attrs s.Attributes = h.attrs s.Attributes ∧
      (s.WithValues kv h).2.records p = h.records p) ∧
    ((s.WithName x h).2.loggers[p]? = some s ∧
      (s.WithName x h).2.attrs s.Attributes = h.attrs s.Attributes ∧
      (s.WithName x h).2.records p = h.records p) ∧
    ∃ res, (s.WithValues kv h).2.loggers[h.loggers.length + 1]? = some res ∧
      res.Attributes = some h.maps.length ∧ res.Attributes ≠ s.Attributes := by
  obtain ⟨f1, f2, f3⟩ := WithValues_frame s kv h
  have hl1 : (s.WithValues kv h).2.loggers[p]? = some s := by
    rw [f1]; exact getElem?_append_of_some _ _ _ _ hp
  have hl2 : (s.WithName x h).2.loggers[p]? = some s :=
    getElem?_append_of_some _ _ _ _ hp
  refine ⟨⟨hl1, attrs_eq_of_maps _ _ _ hattr f3,
      records_eq_of_frame _ _ _ (by rw [hl1, hp]) f2⟩,
    ⟨hl2, rfl, records_eq_of_frame _ _ _ (by rw [hl2, hp]) rfl⟩, ?_⟩
  refine ⟨_, by rw [f1]; exact getElem?_append_pair_snd _ _ _, rfl, ?_⟩
  intro hcon
  have := hattr h.maps.length hcon.symm
  omega

/-- C13 at the logger `bound` (address 2 of `boundHeap`, with `k` bound to
`v`), a list that rebinds `k`, and the name `x`. -/
theorem C13_derivations_witness :
    (boundHeap.loggers[2]? = some boundLogger ∧
      ∀ a, boundLogger.Attributes = some a → a < boundHeap.maps.length) ∧
    (((boundLogger.WithValues rebindKV boundHeap).2.loggers[2]? = some boundLogger ∧
      (boundLogger.WithValues rebindKV boundHeap).2.attrs boundLogger.Attributes =
        boundHeap.attrs boundLogger.Attributes ∧
      (boundLogger.WithValues rebindKV boundHeap).2.records 2 = boundHeap.records 2) ∧
    ((boundLogger.WithName "x" boundHeap).2.loggers[2]? = some boundLogger ∧
      (boundLogger.WithName "x" boundHeap).2.attrs boundLogger.Attributes =
        boundHeap.attrs boundLogger.Attributes ∧
      (boundLogger.WithName "x" boundHeap).2.records 2 = boundHeap.records 2) ∧
    ∃ res, (boundLogger.WithValues rebindKV boundHeap).2.loggers[boundHeap.loggers.length + 1]? =
        some res ∧
      res.Attributes = some boundHeap.maps.length ∧
      res.Attributes ≠ boundLogger.Attributes) :=
  ⟨⟨by decide, by intro a ha; cases ha; decide⟩,
   C13_derivations_leave_receiver boundLogger 2 rebindKV "x" boundHeap (by decide)
     (by intro a ha; cases ha; decide)⟩


theorem record_eq_of_view {h1 h2 : Heap} {r1 r2 : LogRecord} {v : RecordView}
    (hv1 : h1.view r1 = v) (hv2 : h2.view r2 = v) (ha : r1.Attributes = r2.Attributes) :
    r1 = r2 := by
  have e1 := congrArg RecordView.LoggerName (hv1.trans hv2.symm)
  have e2 := congrArg RecordView.Level (hv1.trans hv2.symm)
  have e3 := congrArg RecordView.Message (hv1.trans hv2.symm)
  have e4 := congrArg RecordView.Error (hv1.trans hv2.symm)
  cases r1
  cases r2
  simp only [Heap.view] at e1 e2 e3 e4
  simp only at ha
  simp [e1, e2, e3, e4, ha]

/-- C14: for every logger `s`, `s.WithCaller()` returns the address of a
struct equal to `s` (same `Name`, `Attributes` reference, `Records` header and
`EventSink`); and when the `EventSink` of `s` points to a logger with a valid
`Records` header, an emission call with a well-formed list made through the
logger returned by `WithCaller` appends to the `Records` of that same sink the
same record as the same call made through `s`. -/
theorem C14_WithCaller_same_fields_same_sink (grow : Nat → Nat) (h : Heap) (p q : Nat)
    (s sink : SpyLogger) (c : Call)
    (hp : h.loggers[p]? = some s) (hs : s.EventSink = some q)
    (hq : h.loggers[q]? = some sink) (hv : h.validSlice sink.Records)
    (hwf : WellFormedKV c.kv) :
    (s.WithCaller h).2.loggers[(s.WithCaller h).1]? = some s ∧
    ∃ h1 h2 r, emit grow p c h = (.ok (), h1) ∧
      emit grow (s.WithCaller h).1 c (s.WithCaller h).2 = (.ok (), h2) ∧
      h1.records q = h.records q ++ [r] ∧
      h2.records q = h.records q ++ [r] := by
  have hc : (s.WithCaller h).2.loggers[(s.WithCaller h).1]? = some s := by
    simp [SpyLogger.WithCaller]
  have hq2 : (s.WithCaller h).2.loggers[q]? = some sink :=
    getElem?_append_of_some _ _ _ _ hq
  obtain ⟨h1, r1, e1, ha1, hattr1, hview1⟩ := emit_spec grow p s sink q c h hp hs hq hv hwf
  obtain ⟨h2, r2, e2, ha2, hattr2, hview2⟩ := emit_spec grow (s.WithCaller h).1 s sink q c
    (s.WithCaller h).2 hc hs hq2 hv hwf
  have hr : r2 = r1 := record_eq_of_view hview2 hview1 (by rw [hattr1, hattr2]; rfl)
  refine ⟨hc, h1, h2, r1, e1, e2, ha1.records_sink hq, ?_⟩
  rw [ha2.records_sink hq2, hr,
    records_eq_of_frame (s.WithCaller h).2 h q (by rw [hq2, hq]) rfl]

/-- C14 at the logger `svc` of `namedHeap`, whose sink is at address 1, and
the call `Info("retry", "attempt", 1)`. -/
theorem C14_WithCaller_witness :
    (namedHeap.loggers[2]? = some svcLogger ∧ svcLogger.EventSink = some 1 ∧
      namedHeap.loggers[1]? = some rootCopy ∧ namedHeap.validSlice rootCopy.Records ∧
      WellFormedKV retryCall.kv) ∧
    ((svcLogger.WithCaller namedHeap).2.loggers[(svcLogger.WithCaller namedHeap).1]? =
        some svcLogger ∧
    ∃ h1 h2 r, emit doubling 2 retryCall namedHeap = (.ok (), h1) ∧
      emit doubling (svcLogger.WithCaller namedHeap).1 retryCall
        (svcLogger.WithCaller namedHeap).2 = (.ok (), h2) ∧
      h1.records 1 = namedHeap.records 1 ++ [r] ∧
      h2.records 1 = namedHeap.records 1 ++ [r]) :=
  ⟨⟨by decide, rfl, by decide, by decide, by decide⟩,
   C14_WithCaller_same_fields_same_sink doubling namedHeap 2 1 svcLogger rootCopy retryCall
     (by decide) rfl (by decide) (by decide) (by decide)⟩


/-- C15: in every heap, `NewSpy` returns the address of a new logger with
empty name, no attributes (the nil map: no key is found in it), empty
`Records` (the nil slice), and whose `EventSink` is its own address. -/
theorem C15_NewSpy_is_own_sink (h : Heap) :
    ∃ s, (NewSpy h).2.loggers[(NewSpy h).1]? = some s ∧
      s.Name = "" ∧ s.Attributes = none ∧
      (∀ key, ((NewSpy h).2.attrs s.Attributes).lookup key = none) ∧
      s.Records = Slice.nil ∧ (NewSpy h).2.records (NewSpy h).1 = [] ∧
      s.EventSink = some (NewSpy h).1 := by
  have hp : (NewSpy h).2.loggers[(NewSpy h).1]? =
      some { Name := "", Attributes := none, Records := Slice.nil,
             EventSink := some (NewSpy h).1 } := by
    simp [NewSpy]
  refine ⟨_, hp, rfl, rfl, ?_, rfl, ?_, rfl⟩
  · intro key
    simp [Heap.attrs]
  · simp only [Heap.records, hp, Heap.readSlice, Slice.nil, List.take_zero]

/-- C16: `Enabled` returns true for every logger struct, whatever its fields
(root or derived, with or without records), and a call of it through a
pointer to a logger returns true and leaves the heap as it was. -/
theorem C16_Enabled_always_true (s : SpyLogger) (h : Heap) (p : Nat)
    (hp : h.loggers[p]? = some s) :
    s.Enabled = true ∧ enabledCall p h = (.ok true, h) := by
  refine ⟨rfl, ?_⟩
  simp only [enabledCall, viaPointer, hp, SpyLogger.Enabled]

/-- C16 at the derived logger `a` after the two emissions of the test
`twoNamedLoggers`. -/
theorem C16_Enabled_witness :
    (twoNamedLoggers doubling "a" "b").2.loggers[2]? = some loggerA ∧
    (loggerA.Enabled = true ∧
      enabledCall 2 (twoNamedLoggers doubling "a" "b").2 =
        (.ok true, (twoNamedLoggers doubling "a" "b").2)) :=
  ⟨by decide, C16_Enabled_always_true loggerA (twoNamedLoggers doubling "a" "b").2 2
    (by decide)⟩


theorem mem_mapOfPairs_iff (kv : List Value) (hwf : WellFormedKV kv) (key : String) :
    key ∈ mapOfPairs kv ↔ ∃ i, kv[2 * i]? = some (Value.str key) := by
  rw [← AList.lookup_isSome, lookup_mapOfPairs kv hwf]
  constructor
  · intro hsome
    by_contra hcon
    have hnone := (lastValue_eq_none_iff key kv hwf.1).mpr
      (fun i hi => hcon ⟨i, hi⟩)
    rw [hnone] at hsome
    cases hsome
  · rintro ⟨i, hi⟩
    cases hl : lastValue key kv with
    | some v => rfl
    | none => exact absurd hi ((lastValue_eq_none_iff key kv hwf.1).mp hl i)

/-- C17: for every well-formed key/value list, the attribute map of the record
returned by `NewRecord` has as keys exactly the even-indexed elements of the
list, each mapped to the value that follows its last occurrence at an even
index (a later duplicate overrides an earlier one); and in the attribute map
of the logger returned by `SpyLogger.WithValues` for the same list, each key of
the list is likewise mapped to the value that follows its last occurrence. -/
theorem C17_last_occurrence_wins (name : String) (level : LogLevel) (msg : String)
    (err : Option GoError) (s : SpyLogger) (kv : List Value) (h : Heap)
    (hwf : WellFormedKV kv) :
    (∃ r h1, NewRecord name level msg err kv h = (.ok r, h1) ∧
      (∀ key, key ∈ h1.attrs r.Attributes ↔ ∃ i, kv[2 * i]? = some (Value.str key)) ∧
      (∀ i key, kv[2 * i]? = some (Value.str key) →
        (∀ j, i < j → kv[2 * j]? ≠ some (Value.str key)) →
        (h1.attrs r.Attributes).lookup key = kv[2 * i + 1]?)) ∧
    (∃ d h1 res, s.WithValues kv h = (.ok d, h1) ∧ h1.loggers[d]? = some res ∧
      (∀ i key, kv[2 * i]? = some (Value.str key) →
        (∀ j, i < j → kv[2 * j]? ≠ some (Value.str key)) →
        (h1.attrs res.Attributes).lookup key = kv[2 * i + 1]?)) := by
  have hattrs : ({ h with maps := h.maps ++ [mapOfPairs kv] } : Heap).attrs
      (some h.maps.length) = mapOfPairs kv := by
    simp [Heap.attrs, Heap.mapAt, List.getD_eq_getElem?_getD]
  constructor
  · refine ⟨_, _, NewRecord_ok name level msg err kv h hwf, ?_, ?_⟩
    · intro key
      simp only [hattrs]
      exact mem_mapOfPairs_iff kv hwf key
    · intro i key hi hlast
      simp only [hattrs]
      rw [lookup_mapOfPairs kv hwf, lastValue_at key kv hwf.1 i hi hlast]
  · refine ⟨_, _, ⟨s.Name, some h.maps.length, Slice.nil, some h.loggers.length⟩,
      WithValues_spec s kv h hwf, getElem?_append_pair_snd _ _ _, ?_⟩
    intro i key hi hlast
    simp only [Heap.attrs, Heap.mapAt, List.getD_eq_getElem?_getD, List.getElem?_concat_length,
      Option.getD_some]
    rw [lookup_insertPairs kv hwf, lastValue_at key kv hwf.1 i hi hlast]
    have hlt : 2 * i + 1 < kv.length := by
      have : 2 * i < kv.length := by
        by_contra hcon
        have : kv[2 * i]? = none := by simp; omega
        rw [this] at hi; cases hi
      have := hwf.1
      omega
    simp [List.getElem?_eq_getElem hlt]

/-- C17 at the list `"a", 1, "a", 2` with its repeated key, and the logger
`bound`. -/
theorem C17_last_occurrence_witness :
    WellFormedKV repeatedKeyKV ∧
    ((∃ r h1, NewRecord "n" LogLevelInfo "m" none repeatedKeyKV boundHeap = (.ok r, h1) ∧
      (∀ key, key ∈ h1.attrs r.Attributes ↔
        ∃ i, repeatedKeyKV[2 * i]? = some (Value.str key)) ∧
      (∀ i key, repeatedKeyKV[2 * i]? = some (Value.str key) →
        (∀ j, i < j → repeatedKeyKV[2 * j]? ≠ some (Value.str key)) →
        (h1.attrs r.Attributes).lookup key = repeatedKeyKV[2 * i + 1]?)) ∧
    (∃ d h1 res, boundLogger.WithValues repeatedKeyKV boundHeap = (.ok d, h1) ∧
      h1.loggers[d]? = some res ∧
      (∀ i key, repeatedKeyKV[2 * i]? = some (Value.str key) →
        (∀ j, i < j → repeatedKeyKV[2 * j]? ≠ some (Value.str key)) →
        (h1.attrs res.Attributes).lookup key = repeatedKeyKV[2 * i + 1]?))) :=
  ⟨by decide, C17_last_occurrence_wins "n" LogLevelInfo "m" none boundLogger repeatedKeyKV
    boundHeap (by decide)⟩


theorem mapSet_attrs_lookup_ne (h : Heap) (a : Nat) (k key : String) (v : Value)
    (hne : key ≠ k) :
    ((h.mapSet a k v).attrs (some a)).lookup key = (h.attrs (some a)).lookup key := by
  by_cases ha : a < h.maps.length
  · simp only [Heap.attrs]
    rw [mapAt_mapSet_same h a k v ha, AList.lookup_insert_ne hne]
  · have : h.mapSet a k v = h := by
      simp only [Heap.mapSet]
      rw [List.set_eq_of_length_le (by omega)]
    rw [this]

theorem assignPairs_lookup_other (a : Nat) (key : String) : ∀ (kv : List Value) (h : Heap),
    (∀ i, kv[2 * i]? ≠ some (Value.str key)) →
    ((assignPairs (some a) kv h).2.attrs (some a)).lookup key =
      (h.attrs (some a)).lookup key := by
  intro kv
  induction kv using pairs_induction with
  | h0 => intro h _; simp [assignPairs]
  | h1 k => intro h _; cases k <;> simp [assignPairs]
  | h2 k v rest ih =>
    intro h hnot
    cases k with
    | str k0 =>
      have hk : key ≠ k0 := by
        intro e
        have := hnot 0
        simp [e] at this
      have hrest : ∀ i, rest[2 * i]? ≠ some (Value.str key) := by
        intro i
        have := hnot (i + 1)
        simpa [Nat.mul_add] using this
      simp only [assignPairs]
      rw [ih (h.mapSet a k0 v) hrest, mapSet_attrs_lookup_ne h a k0 key v hk]
    | nil => simp [assignPairs]
    | int i => simp [assignPairs]
    | bool b => simp [assignPairs]

theorem assignPairs_none_heap : ∀ (kv : List Value) (h : Heap),
    (assignPairs none kv h).2 = h := by
  intro kv
  induction kv using pairs_induction with
  | h0 => intro h; simp [assignPairs]
  | h1 k => intro h; cases k <;> simp [assignPairs]
  | h2 k v rest _ => intro h; cases k <;> simp [assignPairs]

/-- C18: `LogRecord.WithValues` called on an existing record writes only to
the attribute map of the record.  The method assigns no field of the struct:
whatever the outcome, the loggers, the backing arrays (so every stored record,
with its `LoggerName`, `Level`, `Message`, `Error` and `Attributes` reference)
and every other map of the heap are what they were; every attribute whose key
is not a key of the list keeps its value; for a well-formed list and a record
whose attribute map is a map of the heap the call returns; and for every
odd-length list the call panics with the explicit "not even" panic and leaves
the whole heap, the attribute map included, exactly as it was, even when the
leading pairs are well formed. -/
theorem C18_record_WithValues_writes_only_attributes (record : LogRecord) (kv : List Value)
    (h : Heap) :
    ((record.WithValues kv h).2.loggers = h.loggers ∧
      (record.WithValues kv h).2.arrays = h.arrays ∧
      ∀ b, record.Attributes ≠ some b → (record.WithValues kv h).2.maps[b]? = h.maps[b]?) ∧
    (∀ key, (∀ i, kv[2 * i]? ≠ some (Value.str key)) →
      ((record.WithValues kv h).2.attrs record.Attributes).lookup key =
        (h.attrs record.Attributes).lookup key) ∧
    (WellFormedKV kv → ∀ a, record.Attributes = some a → a < h.maps.length →
      (record.WithValues kv h).1 = .ok ()) ∧
    (kv.length % 2 = 1 → record.WithValues kv h = (.error .notEven, h)) := by
  by_cases hodd : kv.length % 2 = 1
  · have hne : (kv.length % 2 != 0) = true := by simp [hodd]
    have hres : record.WithValues kv h = (.error .notEven, h) := by
      simp [LogRecord.WithValues, hne]
    rw [hres]
    refine ⟨⟨rfl, rfl, fun _ _ => rfl⟩, fun _ _ => rfl, ?_, fun _ => rfl⟩
    intro hwf
    have := hwf.1
    omega
  · have hne : (kv.length % 2 != 0) = false := by
      have : kv.length % 2 = 0 := by omega
      simp [this]
    have hres : record.WithValues kv h = assignPairs record.Attributes kv h := by
      simp [LogRecord.WithValues, hne]
    rw [hres]
    obtain ⟨f1, f2, _, f4⟩ := assignPairs_frame record.Attributes kv h
    refine ⟨⟨f1, f2, f4⟩, ?_, ?_, fun hcon => absurd hcon hodd⟩
    · intro key hnot
      cases hattr : record.Attributes with
      | none => rw [assignPairs_none_heap]
      | some a => exact assignPairs_lookup_other a key kv h hnot
    · intro hwf a ha hlt
      rw [ha, assignPairs_ok a kv h hlt hwf]

/-- C18 at a record whose attribute map binds `k`, and an odd-length list whose
leading pair would rebind `k`: the call panics and the heap is untouched. -/
theorem C18_record_WithValues_witness :
    danglingKV.length % 2 = 1 ∧
    (boundHeap.attrs storedRecord.Attributes).lookup "k" = some (Value.str "v") ∧
    storedRecord.WithValues danglingKV boundHeap = (.error .notEven, boundHeap) :=
  ⟨by decide, by decide,
   (C18_record_WithValues_writes_only_attributes storedRecord danglingKV boundHeap).2.2.2
     (by decide)⟩


theorem emit_error (grow : Nat → Nat) (p : Nat) (s : SpyLogger) (c : Call) (h : Heap)
    (hp : h.loggers[p]? = some s) (hnot : ¬ WellFormedKV c.kv) :
    ∃ e h1, emit grow p c h = (.error e, h1) := by
  cases c with
  | Error err msg kv =>
    obtain ⟨e, h1, he⟩ := NewRecord_error s.Name LogLevelError msg err kv h hnot
    exact ⟨e, h1, by simp only [emit, SpyLogger.Error, hp, he]⟩
  | Info msg kv =>
    obtain ⟨e, h1, he⟩ := NewRecord_error s.Name LogLevelInfo msg none kv h hnot
    exact ⟨e, h1, by simp only [emit, viaPointer, SpyLogger.Info, hp, he]⟩
  | Debug msg kv =>
    obtain ⟨e, h1, he⟩ := NewRecord_error s.Name LogLevelDebug msg none kv h hnot
    exact ⟨e, h1, by simp only [emit, viaPointer, SpyLogger.Debug, hp, he]⟩
  | Trace msg kv =>
    obtain ⟨e, h1, he⟩ := NewRecord_error s.Name LogLevelTrace msg none kv h hnot
    exact ⟨e, h1, by simp only [emit, viaPointer, SpyLogger.Trace, hp, he]⟩

/-- C19: a successful emission call on a logger `s` (at address `p`) whose
`EventSink` points to the logger `sink` (at address `q`) with a valid `Records`
header only appends to the sink: the sink's `Records` after the call is its
`Records` before the call followed by exactly one record, and the `Name`, the
`Attributes` (the reference and, for a map of the heap, its entries) and the
`EventSink` of both the emitting logger and the sink are what they were. -/
theorem C19_emission_only_appends_to_sink (grow : Nat → Nat) (h h1 : Heap) (p q : Nat)
    (s sink : SpyLogger) (c : Call)
    (hp : h.loggers[p]? = some s) (hs : s.EventSink = some q)
    (hq : h.loggers[q]? = some sink) (hv : h.validSlice sink.Records)
    (hsa : ∀ a, s.Attributes = some a → a < h.maps.length)
    (hka : ∀ a, sink.Attributes = some a → a < h.maps.length)
    (hok : emit grow p c h = (.ok (), h1)) :
    (∃ r, h1.records q = h.records q ++ [r]) ∧
    (∃ s1, h1.loggers[p]? = some s1 ∧ s1.Name = s.Name ∧
      s1.Attributes = s.Attributes ∧ s1.EventSink = s.EventSink ∧
      h1.attrs s1.Attributes = h.attrs s.Attributes) ∧
    (∃ sink1, h1.loggers[q]? = some sink1 ∧ sink1.Name = sink.Name ∧
      sink1.Attributes = sink.Attributes ∧ sink1.EventSink = sink.EventSink ∧
      h1.attrs sink1.Attributes = h.attrs sink.Attributes) := by
  have hwf : WellFormedKV c.kv := by
    by_contra hnot
    obtain ⟨e, h2, he⟩ := emit_error grow p s c h hp hnot
    rw [he] at hok
    cases hok
  obtain ⟨h2, r, e2, ha, _, _⟩ := emit_spec grow p s sink q c h hp hs hq hv hwf
  have hh : h2 = h1 := by
    rw [e2] at hok
    cases hok
    rfl
  subst hh
  have hmaps : ∀ b, b < h.maps.length → h2.maps[b]? = h.maps[b]? := by
    obtain ⟨sl, e1, _, _, _⟩ := ha
    intro b hb
    rw [e1, List.getElem?_append_left hb]
  obtain ⟨sl, hsink1, _⟩ := ha.logger_sink hq
  refine ⟨⟨r, ha.records_sink hq⟩, ?_,
    ⟨_, hsink1, rfl, rfl, rfl, attrs_eq_of_maps h h2 _ hka hmaps⟩⟩
  by_cases hpq : p = q
  · subst hpq
    have hss : s = sink := by
      rw [hp] at hq
      cases hq
      rfl
    subst hss
    exact ⟨_, hsink1, rfl, rfl, rfl, attrs_eq_of_maps h h2 _ hsa hmaps⟩
  · exact ⟨s, by rw [ha.logger_other p hpq, hp], rfl, rfl, rfl,
      attrs_eq_of_maps h h2 _ hsa hmaps⟩

/-- C19 at the logger `bound` of `boundHeap` (with `k` bound to `v`), whose
sink is the copy of the root at address 1, and the call
`Info("retry", "attempt", 1)`. -/
theorem C19_emission_only_appends_witness :
    (boundHeap.loggers[2]? = some boundLogger ∧ boundLogger.EventSink = some 1 ∧
      boundHeap.loggers[1]? = some rootCopy ∧ boundHeap.validSlice rootCopy.Records ∧
      (∀ a, boundLogger.Attributes = some a → a < boundHeap.maps.length) ∧
      (∀ a, rootCopy.Attributes = some a → a < boundHeap.maps.length) ∧
      emit doubling 2 retryCall boundHeap =
        (.ok (), (emit doubling 2 retryCall boundHeap).2)) ∧
    ((∃ r, (emit doubling 2 retryCall boundHeap).2.records 1 = boundHeap.records 1 ++ [r]) ∧
    (∃ s1, (emit doubling 2 retryCall boundHeap).2.loggers[2]? = some s1 ∧
      s1.Name = boundLogger.Name ∧
      s1.Attributes = boundLogger.Attributes ∧ s1.EventSink = boundLogger.EventSink ∧
      (emit doubling 2 retryCall boundHeap).2.attrs s1.Attributes =
        boundHeap.attrs boundLogger.Attributes) ∧
    (∃ sink1, (emit doubling 2 retryCall boundHeap).2.loggers[1]? = some sink1 ∧
      sink1.Name = rootCopy.Name ∧
      sink1.Attributes = rootCopy.Attributes ∧ sink1.EventSink = rootCopy.EventSink ∧
      (emit doubling 2 retryCall boundHeap).2.attrs sink1.Attributes =
        boundHeap.attrs rootCopy.Attributes)) :=
  ⟨⟨by decide, rfl, by decide, by decide, by intro a ha; cases ha; decide,
      (by intro a ha; cases ha), rfl⟩,
   C19_emission_only_appends_to_sink doubling boundHeap _ 2 1 boundLogger rootCopy retryCall
     (by decide) rfl (by decide) (by decide) (by intro a ha; cases ha; decide)
     (by intro a ha; cases ha) rfl⟩

end Logtest
